import Mathlib

/-!
Shallow embedding of the VoteIT `member_dialects` electoral-register policies
(`dialects/main_or_subst_er.py`, `dialects/skk_fum.py`,
`dialects/main_subst_delegate.py`, `dialects/skr_agarrad.py`, `dialects/sfs.py`)
together with theorems settling the frozen claims about them.

Users, groups and roles are identified by their numeric primary keys.
Querysets without an explicit `order_by` are modelled as the row lists stored in
the state, in table order; querysets with `order_by` are sorted explicitly with
a stable sort, mirroring both the database sort and Python's `list.sort`.
Python dictionaries are modelled as association lists (insertion ordered,
later writes overwriting earlier keys) or, where only the key set matters,
as finite sets.
-/

/-- Code-point lexicographic comparison of character lists, the order a
database applies to ASCII `role_id` strings under `order_by("role_id")`. -/
def chLe : List Char → List Char → Bool
  | [], _ => true
  | _ :: _, [] => false
  | c :: cs, d :: ds =>
    if c.toNat < d.toNat then true
    else if d.toNat < c.toNat then false
    else chLe cs ds

/-- Lexicographic `≤` on strings via their character lists. -/
def strLe (a b : String) : Bool := chLe a.data b.data

/-- Insert `a` into an already sorted list, before the first element it
compares `le` to, so that the enclosing sort is stable. -/
def insSorted (le : α → α → Bool) (a : α) : List α → List α
  | [] => [a]
  | b :: l => if le a b then a :: b :: l else b :: insSorted le a l

/-- Stable insertion sort, modelling `order_by` and Python's stable sort. -/
def sortStable (le : α → α → Bool) (l : List α) : List α :=
  l.foldr (insSorted le) []

/-- Index of the last occurrence of `u` in the list, offset by `i`.  Mirrors a
Python dict comprehension `\x7bpk: i for i, pk in enumerate(l)\x7d` where a later
duplicate key overwrites an earlier one. -/
def lastIdxAux (u : Nat) : List Nat → Nat → Option Nat → Option Nat
  | [], _, acc => acc
  | x :: xs, i, acc => lastIdxAux u xs (i + 1) (if x = u then some i else acc)

/-- Helper turning a decidable `getD`/`isSome` evaluation into an equation with
`some`; used to state concrete-scenario results whose `Decidable` instances do
not kernel-reduce through `Option.map`. -/
theorem opt_eq_some {α : Type _} (o : Option α) (d a : α) (h1 : o.isSome = true)
    (h2 : o.getD d = a) : o = some a := by
  cases o with
  | none => simp at h1
  | some b => simpa using h2

deriving instance DecidableEq for Except

/-! ## Main/Substitute + Active policy (`dialects/main_or_subst_er.py`) -/

/-- Row of `meeting.group_roles`: primary key and `role_id` string. -/
structure MSARole where
  pk : Nat
  rid : String
deriving DecidableEq, Repr

/-- Row of `meeting.groups`: primary key and nullable `votes` capacity. -/
structure MSAGroup where
  pk : Nat
  votes : Option Nat
deriving DecidableEq, Repr

/-- Row of `GroupMembership`: user, nullable role foreign key, group, and the
audit-only `votes` annotation. -/
structure MSAMem where
  userId : Nat
  roleFk : Option Nat
  groupId : Nat
  votes : Option Nat
deriving DecidableEq, Repr

/-- Entity state read by `MainSubstActivePolicy.get_voters`: the meeting's
group roles, the active-users feature toggle, the `active_users` log in
chronological `created` order, the participant pks, the groups and the
membership rows in table order. -/
structure MSAState where
  groupRoles : List MSARole
  activeOn : Bool
  activeUsers : List Nat
  participants : List Nat
  groups : List MSAGroup
  mems : List MSAMem
deriving DecidableEq, Repr

/-- The `user_order` dict: position of entry into the active-user log when
active tracking is enabled, otherwise the participant's own pk
("We have no way of knowing order, using pk is as bad as any other method"). -/
def userOrder (st : MSAState) (u : Nat) : Option Nat :=
  if st.activeOn then lastIdxAux u st.activeUsers 0 none
  else if u ∈ st.participants then some u else none

/-- The `relevant_roles` query: roles whose `role_id` is `main` or
`substitute`, ordered by `role_id`; `get_voters` requires exactly two and then
unpacks `main_role, subst_role` in that order. -/
def msaRoles (st : MSAState) : Option (MSARole × MSARole) :=
  match sortStable (fun a b => strLe a.rid b.rid)
      (st.groupRoles.filter (fun r => decide (r.rid = "main" ∨ r.rid = "substitute"))) with
  | [a, b] => some (a, b)
  | _ => none

/-- Truthiness of the filter `votes__gt=0` on a nullable integer column. -/
def hasVotes (v : Option Nat) : Bool := decide (0 < v.getD 0)

/-- The `groups_with_votes` queryset, groups whose capacity is positive. -/
def msaGroupsWith (st : MSAState) : List MSAGroup :=
  st.groups.filter (fun g => hasVotes g.votes)

/-- The `group_vote_power` dict `\x7bg: g.votes for g in groups_with_votes\x7d`,
read as a total function on group pks (groups outside the dict are never
looked up by the loops; they get `0` here). -/
def powerInit (gw : List MSAGroup) : Nat → Nat :=
  gw.foldl (fun f x g => if g = x.pk then x.votes.getD 0 else f g) (fun _ => 0)

/-- The per-group, per-role membership list of `group_memberships`: membership
rows restricted to users present in `user_order` and to the given role pk and
group pk (the composition of the `membership_qs` filter with the prefetch
grouping), projected to user ids and sorted stably by the precomputed order. -/
def memberList (st : MSAState) (rolePk gpk : Nat) : List Nat :=
  sortStable (fun a b => decide ((userOrder st a).getD 0 ≤ (userOrder st b).getD 0))
    ((st.mems.filter (fun m =>
        (userOrder st m.userId).isSome && decide (m.groupId = gpk) &&
          decide (m.roleFk = some rolePk))).map (fun m => m.userId))

/-- Working state of the allocation loops: the mutable `group_vote_power`
dict, the `picked_voters` set, and an instrumentation log recording, in
order, each `(group pk, user pk)` pick that consumed one unit of that group's
capacity (the code's `groups_vote_dist` is recoverable from it). -/
structure Alloc where
  power : Nat → Nat
  picked : Finset Nat
  log : List (Nat × Nat)

/-- Inner loop `for user_pk in members` of `get_voters`: break once the
group's remaining power is zero, skip users picked anywhere before, otherwise
pick the user, decrement the group's power and record the pick. -/
def pickGroup (gpk : Nat) : List Nat → Alloc → Alloc
  | [], a => a
  | u :: rest, a =>
    if a.power gpk = 0 then a
    else if u ∈ a.picked then pickGroup gpk rest a
    else pickGroup gpk rest
      { power := fun g => if g = gpk then a.power gpk - 1 else a.power g,
        picked := insert u a.picked,
        log := a.log ++ [(gpk, u)] }

/-- Outer loops `for role in [main_role, subst_role]: for group in
groups_with_votes`, starting from the initial vote-power dict. -/
def msaAllocCore (st : MSAState) (mainPk substPk : Nat) : Alloc :=
  [mainPk, substPk].foldl
    (fun a rpk =>
      (msaGroupsWith st).foldl (fun b g => pickGroup g.pk (memberList st rpk g.pk) b) a)
    ⟨powerInit (msaGroupsWith st), ∅, []⟩

/-- Allocation result of `MainSubstActivePolicy.get_voters`; `none` models the
`ElectoralRegisterError` raised when the two required roles are missing. -/
def msaAlloc (st : MSAState) : Option Alloc :=
  (msaRoles st).map (fun pr => msaAllocCore st pr.1.pk pr.2.pk)

/-- Return value `\x7bx: 1 for x in picked_voters\x7d` of
`MainSubstActivePolicy.get_voters`, as a finite set of (user, weight) pairs. -/
def msaVoters (st : MSAState) : Option (Finset (Nat × Nat)) :=
  (msaAlloc st).map (fun a => a.picked.image (fun u => (u, 1)))

/-- The `groups_vote_dist[gpk]` set: users whose pick was charged to `gpk`. -/
def msaDist (a : Alloc) (gpk : Nat) : Finset Nat :=
  ((a.log.filter (fun p => decide (p.1 = gpk))).map Prod.snd).toFinset

/-- Effect of the `update_memberships=True` branch on one membership row's
`votes` field: rows of a group that appears in `groups_vote_dist` get `1`
when their user was picked for that group and `NULL` otherwise; rows of every
other group are reset to `NULL` when they currently carry `votes > 0`. -/
def msaUpdVotes (a : Alloc) (m : MSAMem) : Option Nat :=
  if a.log.any (fun p => decide (p.1 = m.groupId)) then
    (if m.userId ∈ msaDist a m.groupId then some 1 else none)
  else
    match m.votes with
    | some v => if 0 < v then none else some v
    | none => none

/-- State after the `update_memberships=True` writes: only membership `votes`
audit fields change. -/
def msaApplyUpd (st : MSAState) (a : Alloc) : MSAState :=
  { st with mems := st.mems.map (fun m => { m with votes := msaUpdVotes a m }) }

/-- `get_voters(update_memberships=True)`: the returned mapping together with
the mutated entity state. -/
def msaVotersUpd (st : MSAState) : Option (Finset (Nat × Nat) × MSAState) :=
  (msaAlloc st).map (fun a => (a.picked.image (fun u => (u, 1)), msaApplyUpd st a))

/-- Configured capacity of group `g` as the allocation reads it. -/
def msaCapacity (st : MSAState) (g : Nat) : Nat := powerInit (msaGroupsWith st) g

/-- Number of capacity units of group `g` consumed by the allocation. -/
def msaCharged (st : MSAState) (g : Nat) : Option Nat :=
  (msaAlloc st).map (fun a => (a.log.filter (fun p => decide (p.1 = g))).length)

/-- Weight the returned mapping gives user `u` (0 when absent). -/
def msaUserWeight (st : MSAState) (u : Nat) : Option Nat :=
  (msaAlloc st).map (fun a => if u ∈ a.picked then 1 else 0)

/-- Number of capacity units consumed on behalf of user `u` across all
groups. -/
def msaUserCharge (st : MSAState) (u : Nat) : Option Nat :=
  (msaAlloc st).map (fun a => (a.log.map Prod.snd).count u)

/-! ## SKK Fum policy (`dialects/skk_fum.py`) -/

/-- Row of `meeting.group_roles` for the SKK dialect. -/
structure SKKRole where
  pk : Nat
  rid : String
deriving DecidableEq, Repr

/-- Group row with nullable `votes` capacity. -/
structure SKKGroup where
  pk : Nat
  votes : Option Nat
deriving DecidableEq, Repr

/-- `GroupMembership` row as read by `SKKFum` (user, nullable role fk, group). -/
structure SKKMem where
  userId : Nat
  roleFk : Option Nat
  groupId : Nat
deriving DecidableEq, Repr

/-- Entity state read by `SKKFum.get_voters`: group roles, groups, the users
holding the meeting-level potential-voter role, the active-users toggle and
log, and membership rows in table order. -/
structure SKKState where
  groupRoles : List SKKRole
  groups : List SKKGroup
  potVoters : List Nat
  activeOn : Bool
  activeUsers : List Nat
  mems : List SKKMem
deriving DecidableEq, Repr

/-- State threaded through `iterate_and_pick_voters`: the shared
`group_vote_power` dict, one pickset and its instrumentation log of
`(group pk, user pk)` picks. -/
structure IterSt where
  power : Nat → Nat
  pick : Finset Nat
  lg : List (Nat × Nat)

/-- `SKKFum.iterate_and_pick_voters`: walk the membership rows; skip users
already in the pickset; when the row's group still has vote power, consume one
unit and add the user to the pickset (recording the pick in the log). -/
def skkIter : List (Nat × Nat) → IterSt → IterSt
  | [], s => s
  | (g, u) :: rest, s =>
    if u ∈ s.pick then skkIter rest s
    else if s.power g ≠ 0 then
      skkIter rest
        { power := fun x => if x = g then s.power g - 1 else s.power x,
          pick := insert u s.pick,
          lg := s.lg ++ [(g, u)] }
    else skkIter rest s

/-- Result of the six allocation passes: the primary and secondary picksets
with their pick logs. -/
structure SKKAlloc where
  prim : Finset Nat
  sec : Finset Nat
  logP : List (Nat × Nat)
  logS : List (Nat × Nat)

/-- The six `iterate_and_pick_voters` calls of `SKKFum.get_voters` in source
order, sharing one vote-power dict: proxy-delegates then delegates into the
primary pickset, the same two lists into the secondary pickset, then
substitutes into the primary and finally into the secondary pickset. -/
def skkPasses (fmL dgL spL : List (Nat × Nat)) (p0 : Nat → Nat) : SKKAlloc :=
  let s1 := skkIter fmL ⟨p0, ∅, []⟩
  let s2 := skkIter dgL s1
  let t1 := skkIter fmL ⟨s2.power, ∅, []⟩
  let t2 := skkIter dgL t1
  let s3 := skkIter spL ⟨t2.power, s2.pick, s2.lg⟩
  let t3 := skkIter spL ⟨s3.power, t2.pick, t2.lg⟩
  ⟨s3.pick, t3.pick, s3.lg, t3.lg⟩

/-- The `relevant_roles` query of `SKKFum.get_voters`: roles with `role_id`
in `del_1`, `del_2`, `suppleant`, ordered by `role_id`; exactly three are
required and they unpack as (delegat, delegat-fullmakt, suppleant). -/
def skkRoles (st : SKKState) : Option (SKKRole × SKKRole × SKKRole) :=
  match sortStable (fun a b => strLe a.rid b.rid)
      (st.groupRoles.filter (fun r =>
        decide (r.rid = "del_1" ∨ r.rid = "del_2" ∨ r.rid = "suppleant"))) with
  | [a, b, c] => some (a, b, c)
  | _ => none

/-- Groups with positive capacity for the SKK dialect. -/
def skkGroupsWith (st : SKKState) : List SKKGroup :=
  st.groups.filter (fun g => hasVotes g.votes)

/-- Initial `group_vote_power` dict for the SKK dialect. -/
def skkPowerInit (gw : List SKKGroup) : Nat → Nat :=
  gw.foldl (fun f x g => if g = x.pk then x.votes.getD 0 else f g) (fun _ => 0)

/-- Eligibility filter of `SKKFum.get_voters`: the user holds the
potential-voter meeting role, further restricted to active users when the
active-users component is enabled. -/
def skkElig (st : SKKState) (u : Nat) : Bool :=
  decide (u ∈ st.potVoters) && (!st.activeOn || decide (u ∈ st.activeUsers))

/-- The `base_gm_qs` rows for one of the three roles, projected to
`(group pk, user pk)` in table order. -/
def skkRoleRows (st : SKKState) (rolePk : Nat) : List (Nat × Nat) :=
  ((st.mems.filter (fun m =>
      (skkGroupsWith st).any (fun g => decide (g.pk = m.groupId)) && skkElig st m.userId &&
        decide (m.roleFk = some rolePk))).map (fun m => (m.groupId, m.userId)))

/-- Allocation of `SKKFum.get_voters`; `none` models the
`ElectoralRegisterError` raised when the three required roles are missing. -/
def skkAlloc (st : SKKState) : Option SKKAlloc :=
  (skkRoles st).map (fun r =>
    skkPasses (skkRoleRows st r.2.1.pk) (skkRoleRows st r.1.pk) (skkRoleRows st r.2.2.pk)
      (skkPowerInit (skkGroupsWith st)))

/-- Return value of `SKKFum.get_voters`: `\x7bx: 1 for primary\x7d` updated with
`\x7bx: 2 for secondary\x7d`, as a finite set of (user, weight) pairs. -/
def skkVoters (st : SKKState) : Option (Finset (Nat × Nat)) :=
  (skkAlloc st).map (fun a =>
    (a.prim ∪ a.sec).image (fun u => (u, if u ∈ a.sec then 2 else 1)))

/-- Configured capacity of group `g` as the SKK allocation reads it. -/
def skkCapacity (st : SKKState) (g : Nat) : Nat := skkPowerInit (skkGroupsWith st) g

/-- Number of capacity units of group `g` consumed by the SKK allocation. -/
def skkCharged (st : SKKState) (g : Nat) : Option Nat :=
  (skkAlloc st).map (fun a =>
    (a.logP.filter (fun p => decide (p.1 = g))).length +
      (a.logS.filter (fun p => decide (p.1 = g))).length)

/-- Weight the returned SKK mapping gives user `u` (0 when absent). -/
def skkUserWeight (st : SKKState) (u : Nat) : Option Nat :=
  (skkAlloc st).map (fun a => if u ∈ a.sec then 2 else if u ∈ a.prim then 1 else 0)

/-- Number of capacity units consumed on behalf of user `u` by the SKK
allocation. -/
def skkUserCharge (st : SKKState) (u : Nat) : Option Nat :=
  (skkAlloc st).map (fun a => (a.logP.map Prod.snd).count u + (a.logS.map Prod.snd).count u)

/-! ## Main/Substitute + Delegate policy (`dialects/main_subst_delegate.py`) -/

/-- `GroupMembership` row as read by this dialect: user, group, and the
joined `role.role_id` string (`none` for membership rows without a role). -/
structure MSDMem where
  userId : Nat
  groupId : Nat
  rid : Option String
deriving DecidableEq, Repr

/-- `VoteTransfer` row: primary key, source user, target user. -/
structure VT where
  pk : Nat
  src : Nat
  tgt : Nat
deriving DecidableEq, Repr

/-- Entity state of a meeting configured with the `main_subst_delegate`
dialect: its membership rows and its `vote_transfers` in table order. -/
structure MSDState where
  mems : List MSDMem
  vts : List VT
deriving DecidableEq, Repr

/-- Users holding the `main` role in some group of the meeting (the initial
`voters` set of `MainSubstDelegatePolicy.get_voters`). -/
def msdMains (st : MSDState) : Finset Nat :=
  ((st.mems.filter (fun m => decide (m.rid = some "main"))).map (fun m => m.userId)).toFinset

/-- One iteration of the transfer loop: `voters.add(vt.target_id)` then
`voters.remove(vt.source_id)`; Python's `set.remove` raises `KeyError` when
the source is no longer present, modelled as `none`. -/
def msdStep (acc : Option (Finset Nat)) (t : VT) : Option (Finset Nat) :=
  acc.bind (fun vs =>
    if t.src ∈ insert t.tgt vs then some ((insert t.tgt vs).erase t.src) else none)

/-- Voter set computed by `MainSubstDelegatePolicy.get_voters`: the `main`
role holders, then each transfer whose source is in that original set applied
in table order. -/
def msdVoterSet (st : MSDState) : Option (Finset Nat) :=
  (st.vts.filter (fun t => decide (t.src ∈ msdMains st))).foldl msdStep (some (msdMains st))

/-- Return value `\x7bx: 1 for x in voters\x7d` of
`MainSubstDelegatePolicy.get_voters`. -/
def msdVoters (st : MSDState) : Option (Finset (Nat × Nat)) :=
  (msdVoterSet st).map (fun vs => vs.image (fun u => (u, 1)))

/-- Voter set as the specification words it: all `main` role holders, with
each transfer whose source is a main voter applied simultaneously — source
removed, target added, one level only. -/
def msdSpecVoterSet (st : MSDState) : Finset Nat :=
  let f := st.vts.filter (fun t => decide (t.src ∈ msdMains st))
  (msdMains st \ (f.map (fun t => t.src)).toFinset) ∪ (f.map (fun t => t.tgt)).toFinset

/-- Rejection reasons of `MainAndSubstVT.check`, one per `ValidationError`. -/
inductive VTErr where
  | targetTaken
  | targetIsMain
  | noSharedGroup
deriving DecidableEq, Repr

/-- `MainAndSubstVT.check(source, target, modifying)`: reject when the target
already appears as target or source of another transfer (excluding the one
being modified), when the target holds `main` in any group, or when no group
has the source as `main` and the target as `substitute` together.
`vtQs` is the `qs` queryset: the meeting's transfers minus the one being
modified. -/
def vtQs (st : MSDState) (modifying : Option Nat) : List VT :=
  match modifying with
  | some p => st.vts.filter (fun t => decide (t.pk ≠ p))
  | none => st.vts

/-- Validation body of `MainAndSubstVT.check`. -/
def vtCheck (st : MSDState) (src tgt : Nat) (modifying : Option Nat) : Except VTErr Unit :=
  let qs : List VT := vtQs st modifying
  if qs.any (fun t => decide (t.tgt = tgt ∨ t.src = tgt)) then .error .targetTaken
  else if st.mems.any (fun m => decide (m.userId = tgt ∧ m.rid = some "main")) then
    .error .targetIsMain
  else if st.mems.any (fun m =>
      decide (m.userId = src ∧ m.rid = some "main") &&
        st.mems.any (fun m2 =>
          decide (m2.groupId = m.groupId ∧ m2.userId = tgt ∧ m2.rid = some "substitute"))) then
    .ok ()
  else .error .noSharedGroup

/-- Signal handler `check_role_added` for a membership of `user` gaining role
`rid`: when the gained role is `main`, delete every transfer targeting that
user. -/
def checkRoleAdded (st : MSDState) (user : Nat) (rid : String) : MSDState :=
  if rid = "main" then { st with vts := st.vts.filter (fun t => decide (t.tgt ≠ user)) }
  else st

/-- Signal handler `check_role_removed` for a membership of `user` in group
`grp` losing role `rid` (the state holds the rows after the role change).
Losing `main`: take the first transfer with this user as source and delete it
when its target holds `substitute` in `grp`.  Losing `substitute`: take the
first transfer with this user as target and delete it when its source holds
`main` in `grp`. -/
def checkRoleRemoved (st : MSDState) (user grp : Nat) (rid : String) : MSDState :=
  if rid = "main" then
    match (st.vts.filter (fun t => decide (t.src = user))).head? with
    | some vt =>
      if st.mems.any (fun m =>
          decide (m.userId = vt.tgt ∧ m.rid = some "substitute" ∧ m.groupId = grp)) then
        { st with vts := st.vts.filter (fun t => decide (t.pk ≠ vt.pk)) }
      else st
    | none => st
  else if rid = "substitute" then
    match (st.vts.filter (fun t => decide (t.tgt = user))).head? with
    | some vt =>
      if st.mems.any (fun m =>
          decide (m.userId = vt.src ∧ m.rid = some "main" ∧ m.groupId = grp)) then
        { st with vts := st.vts.filter (fun t => decide (t.pk ≠ vt.pk)) }
      else st
    | none => st
  else st

/-! ## SKR Ägarråd policy (`dialects/skr_agarrad.py`) -/

/-- Group row as read by `SKRAgarradERP`: pk, `groupid` string, tags list and
nullable `delegate_to` group pk. -/
structure SKRGroup where
  pk : Nat
  gid : String
  tags : List String
  delegateTo : Option Nat
deriving DecidableEq, Repr

/-- Entity state read by `SKRAgarradERP.get_voters`: groups, membership rows
as `(group pk, user pk)` pairs in table order, and the active-user log. -/
structure SKRState where
  groups : List SKRGroup
  mems : List (Nat × Nat)
  activeUsers : List Nat
deriving DecidableEq, Repr

/-- Failure modes of `SKRAgarradERP.get_voters`, one per
`ElectoralRegisterError`. -/
inductive SKRErr where
  | noSkrGroup
  | tagOverlap
  | hubCollision
deriving DecidableEq, Repr

/-- Membership of a string in a group's tag list (`tags__contains`). -/
def skrTagged (g : SKRGroup) (tag : String) : Bool := decide (tag ∈ g.tags)

/-- Count of groups delegating to pk `p` (the `delegations_from` reverse
relation). -/
def skrIncoming (st : SKRState) (p : Nat) : Nat :=
  (st.groups.filter (fun h => decide (h.delegateTo = some p))).length

/-- Insert-or-overwrite into an association list, keeping the position of an
existing key, as a Python dict write does. -/
def upsertInt (l : List (Nat × Int)) (k : Nat) (v : Int) : List (Nat × Int) :=
  if l.any (fun p => decide (p.1 = k)) then
    l.map (fun p => if p.1 = k then (k, v) else p)
  else l ++ [(k, v)]

/-- First membership row of the group with pk `p`, giving `members.first()`
for the hub group (table order models the unspecified database order). -/
def skrFirstMember (st : SKRState) (p : Nat) : Option Nat :=
  ((st.mems.filter (fun m => decide (m.1 = p))).head?).map (fun m => m.2)

/-- The hub occupant: first member of the first group whose `groupid` is
`skr`, when both exist. -/
def skrHubUser (st : SKRState) : Option Nat :=
  ((st.groups.filter (fun g => decide (g.gid = "skr"))).head?).bind
    (fun skr => skrFirstMember st skr.pk)

/-- `SKRAgarradERP.get_voters` decomposed into its intermediate dicts; the
combined queryset holds the groups tagged `kommun` or `region`. -/
def skrCombined (st : SKRState) : List SKRGroup :=
  st.groups.filter (fun g => skrTagged g "kommun" || skrTagged g "region")

/-- The `groups_to_vote_weight` dict: each combined group without an outgoing
delegation gets weight `1 + incoming delegations`. -/
def skrWeightMap (st : SKRState) : List (Nat × Int) :=
  ((skrCombined st).filter (fun g => decide (g.delegateTo = none))).map
    (fun g => (g.pk, (skrIncoming st g.pk : Int) + 1))

/-- The `group_to_user` dict: membership rows of combined groups restricted
to active users, first row per group winning (later rows are logged and
skipped). -/
def skrGroupToUser (st : SKRState) : List (Nat × Nat) :=
  (st.mems.filter (fun m =>
      (skrCombined st).any (fun g => decide (g.pk = m.1)) &&
        decide (m.2 ∈ st.activeUsers))).foldl
    (fun acc m => if acc.any (fun p => decide (p.1 = m.1)) then acc else acc ++ [m]) []

/-- The `voters` dict before the hub entry: each represented group's sole
user gets that group's weight when the weight dict holds a truthy value. -/
def skrVoters0 (st : SKRState) : List (Nat × Int) :=
  (skrGroupToUser st).foldl
    (fun acc m =>
      match (skrWeightMap st).find? (fun p => decide (p.1 = m.1)) with
      | some p => if p.2 = 0 then acc else upsertInt acc m.2 p.2
      | none => acc) []

/-- The hub weight `sum(voters.values()) + skr.delegations_from.count() * 2 - 1`. -/
def skrHubWeight (st : SKRState) (skrPk : Nat) : Int :=
  ((skrVoters0 st).map (fun p => p.2)).sum + 2 * (skrIncoming st skrPk : Int) - 1

def skrVoters (st : SKRState) : Except SKRErr (List (Nat × Int)) :=
  match (st.groups.filter (fun g => decide (g.gid = "skr"))).head? with
  | none => .error .noSkrGroup
  | some skr =>
    if st.groups.any (fun g => skrTagged g "kommun" && skrTagged g "region") then
      .error .tagOverlap
    else
      match skrFirstMember st skr.pk with
      | none => .ok (skrVoters0 st)
      | some su =>
        if (skrVoters0 st).any (fun p => decide (p.1 = su)) then .error .hubCollision
        else .ok (skrVoters0 st ++ [(su, skrHubWeight st skr.pk)])

/-! ## SFS delegation-leader weight command (`dialects/sfs.py`) -/

/-- Membership row of the targeted group: user, joined `role.role_id` string
and the `votes` weight column. -/
structure SFSMem where
  userId : Nat
  rid : Option String
  votes : Option Nat
deriving DecidableEq, Repr

/-- One entry of the submitted `weights` payload. -/
structure SFSWeight where
  user : Nat
  weight : Nat
deriving DecidableEq, Repr

/-- State read and written by `SFSSetDelegationVoters.run_job`: the caller's
view permission on the group, the meeting's not-finished status, the group's
nullable capacity, the meeting's configured policy name, the caller pk, the
caller's meeting-change permission, the group's membership rows in table
order and the meeting's potential-voter user pks. -/
structure SFSState where
  permView : Bool
  notFinished : Bool
  groupVotes : Option Nat
  erPolicy : Option String
  caller : Nat
  hasChangePerm : Bool
  mems : List SFSMem
  potVoters : List Nat
deriving DecidableEq, Repr

/-- Rejections of `SFSSetDelegationVoters.run_job`, in check order:
`UnauthorizedError` then one `BadRequestError` per validation. -/
inductive SFSErr where
  | unauthorized
  | meetingClosed
  | noVotes
  | badSum
  | wrongPolicy
  | notLeader
  | nonMember
  | nonPotential
deriving DecidableEq, Repr

/-- Pks of the group's members (`meeting_group.members`). -/
def sfsMemberPks (st : SFSState) : List Nat := st.mems.map (fun m => m.userId)

/-- The mutation phase of `run_job`: clear `votes` on group members that have
a positive weight and were not named in the submission, then
`update_or_create` each submitted `(user, weight)` in payload order. -/
def sfsApply (st : SFSState) (ws : List SFSWeight) : List SFSMem :=
  ws.foldl
    (fun acc w =>
      if acc.any (fun m => decide (m.userId = w.user)) then
        acc.map (fun m => if m.userId = w.user then { m with votes := some w.weight } else m)
      else acc ++ [⟨w.user, none, some w.weight⟩])
    (st.mems.map (fun m =>
      if 0 < m.votes.getD 0 && !(ws.any (fun w => decide (w.user = m.userId))) then
        { m with votes := none }
      else m))

/-- `SFSSetDelegationVoters.run_job`: run every validation in source order and
only then mutate; the returned pair is the raised error (if any) and the
resulting entity state. -/
def sfsRun (st : SFSState) (ws : List SFSWeight) : Option SFSErr × SFSState :=
  if !st.permView then (some .unauthorized, st)
  else if !st.notFinished then (some .meetingClosed, st)
  else if st.groupVotes.getD 0 = 0 then (some .noVotes, st)
  else if (ws.map (fun w => w.weight)).sum ≠ st.groupVotes.getD 0 then (some .badSum, st)
  else if st.erPolicy ≠ some "gv_auto_before_p" then (some .wrongPolicy, st)
  else if !(st.mems.any (fun m =>
      decide (m.userId = st.caller ∧ m.rid = some "leader")) || st.hasChangePerm) then
    (some .notLeader, st)
  else if ws.any (fun w => decide (w.user ∉ sfsMemberPks st)) then (some .nonMember, st)
  else if ws.any (fun w => decide (w.user ∉ st.potVoters)) then (some .nonPotential, st)
  else (none, { st with mems := sfsApply st ws })

/-- Conjunction of every validation of `run_job`, mirrored from the code. -/
def sfsChecksOk (st : SFSState) (ws : List SFSWeight) : Prop :=
  st.permView = true ∧ st.notFinished = true ∧ 0 < st.groupVotes.getD 0 ∧
    (ws.map (fun w => w.weight)).sum = st.groupVotes.getD 0 ∧
    st.erPolicy = some "gv_auto_before_p" ∧
    ((∃ m ∈ st.mems, m.userId = st.caller ∧ m.rid = some "leader") ∨ st.hasChangePerm = true) ∧
    (∀ w ∈ ws, w.user ∈ sfsMemberPks st) ∧ (∀ w ∈ ws, w.user ∈ st.potVoters)

instance (st : SFSState) (ws : List SFSWeight) : Decidable (sfsChecksOk st ws) :=
  inferInstanceAs (Decidable (st.permView = true ∧ st.notFinished = true ∧
    0 < st.groupVotes.getD 0 ∧ (ws.map (fun w => w.weight)).sum = st.groupVotes.getD 0 ∧
    st.erPolicy = some "gv_auto_before_p" ∧
    ((∃ m ∈ st.mems, m.userId = st.caller ∧ m.rid = some "leader") ∨ st.hasChangePerm = true) ∧
    (∀ w ∈ ws, w.user ∈ sfsMemberPks st) ∧ (∀ w ∈ ws, w.user ∈ st.potVoters)))

/-! ## Concrete scenario states -/

/-- Scenario state for claim C6, capacity 2: one group (pk 1) with two `main`
members 1, 2 and two `substitute` members 3, 4, active order 1, 3, 2, 4. -/
def c6Low : MSAState :=
  { groupRoles := [⟨100, "main"⟩, ⟨200, "substitute"⟩],
    activeOn := true,
    activeUsers := [1, 3, 2, 4],
    participants := [],
    groups := [⟨1, some 2⟩],
    mems := [⟨1, some 100, 1, none⟩, ⟨2, some 100, 1, none⟩,
             ⟨3, some 200, 1, none⟩, ⟨4, some 200, 1, none⟩] }

/-- Scenario state for claim C6 with the capacity raised to 10. -/
def c6High : MSAState := { c6Low with groups := [⟨1, some 10⟩] }

/-- Scenario state for claim C5: one group (pk 1) of capacity 5 with user 10
holding the proxy role `del_2`, user 11 the delegate role `del_1` and user 12
the substitute role `suppleant`, all potential voters, active tracking off. -/
def c5St : SKKState :=
  { groupRoles := [⟨1, "del_1"⟩, ⟨2, "del_2"⟩, ⟨3, "suppleant"⟩],
    groups := [⟨1, some 5⟩],
    potVoters := [10, 11, 12],
    activeOn := false,
    activeUsers := [],
    mems := [⟨10, some 2, 1⟩, ⟨11, some 1, 1⟩, ⟨12, some 3, 1⟩] }

/-- C6: for the Main/Substitute+Active policy with one group of capacity 2,
main members A=1 and B=2, substitute members C=3 and D=4 and active order
A,C,B,D, `get_voters` returns exactly A and B with weight 1; with capacity 10
it returns all four users with weight 1 (unused capacity stays unused). -/
theorem C6_main_subst_active_scenarios :
    msaVoters c6Low = some {(1, 1), (2, 1)} ∧
      msaVoters c6High = some {(1, 1), (2, 1), (3, 1), (4, 1)} :=
  ⟨opt_eq_some _ ∅ _ (by decide) (by decide), opt_eq_some _ ∅ _ (by decide) (by decide)⟩

/-- C5: for the SKK Fum policy with a single group of capacity 5 whose
members are A=10 (proxy `del_2`), B=11 (delegate `del_1`) and C=12
(substitute `suppleant`), `get_voters` returns exactly A↦2, B↦2, C↦1, and A
and B land in both the primary and the secondary pick-set with the final
weight taken from the secondary assignment (2), not an additive sum. -/
theorem C5_skk_fum_scenario :
    skkVoters c5St = some {(10, 2), (11, 2), (12, 1)} ∧
      (skkAlloc c5St).map (fun a =>
        decide (10 ∈ a.prim ∧ 10 ∈ a.sec ∧ 11 ∈ a.prim ∧ 11 ∈ a.sec ∧ 12 ∈ a.prim)) =
        some true :=
  ⟨opt_eq_some _ ∅ _ (by decide) (by decide),
    opt_eq_some _ false _ (by decide) (by decide)⟩

/-! ## Claim C1: role-change cleanup of vote transfers -/

/-- Counterexample state for claim C1: after the `main` role of user 1 was
removed from group 10, user 1 still holds `main` in group 11 and user 2 holds
`substitute` in both group 10 and group 11; the transfer 1 → 2 exists. -/
def c1St : MSDState :=
  { mems := [⟨1, 11, some "main"⟩, ⟨2, 10, some "substitute"⟩, ⟨2, 11, some "substitute"⟩],
    vts := [⟨1, 1, 2⟩] }

/-- C1 counterexample: group 11 still jointly justifies the transfer 1 → 2
(its source holds `main` and its target holds `substitute` there), yet the
role-removed handler for the `main` role lost in group 10 deletes the
transfer — it only consults the group named in the event, so the claim that a
transfer is never deleted while some group still justifies it is false. -/
theorem C1_cleanup_counterexample :
    (checkRoleRemoved c1St 1 10 "main").vts = [] ∧
      c1St.vts = [⟨1, 1, 2⟩] ∧
      c1St.mems.any (fun m =>
        decide (m.userId = 1 ∧ m.rid = some "main" ∧ m.groupId = 11)) = true ∧
      c1St.mems.any (fun m =>
        decide (m.userId = 2 ∧ m.rid = some "substitute" ∧ m.groupId = 11)) = true := by
  decide

/-- Helper for the idempotence of `check_role_removed`: when the column
`f` (source or target) is duplicate-free and `vt` heads the rows matching
`f t = u`, then after deleting `vt` by pk no row matching `f t = u` is left. -/
theorem vtNoneLeft (l : List VT) (f : VT → Nat) (hn : (l.map f).Nodup) (vt : VT) (u : Nat)
    (hm : (l.filter (fun t => decide (f t = u))).head? = some vt) :
    (l.filter (fun t => decide (t.pk ≠ vt.pk))).filter (fun t => decide (f t = u)) = [] := by
  have hvt := List.mem_of_mem_head? hm
  rw [List.mem_filter, decide_eq_true_eq] at hvt
  apply List.filter_eq_nil_iff.mpr
  intro t ht hft
  rw [List.mem_filter, decide_eq_true_eq] at ht
  rw [decide_eq_true_eq] at hft
  exact ht.2 (congrArg VT.pk
    (List.inj_on_of_nodup_map hn ht.1 hvt.1 (hft.trans hvt.2.symm)))

/-- Behaviour of `check_role_removed` for a `main` removal when no transfer
has the user as source: nothing changes. -/
theorem crrNoneMain (st : MSDState) (u g : Nat)
    (h : (st.vts.filter (fun t => decide (t.src = u))).head? = none) :
    checkRoleRemoved st u g "main" = st := by
  unfold checkRoleRemoved
  rw [if_pos rfl, h]

/-- Behaviour of `check_role_removed` for a `substitute` removal when no
transfer has the user as target: nothing changes. -/
theorem crrNoneSubst (st : MSDState) (u g : Nat)
    (h : (st.vts.filter (fun t => decide (t.tgt = u))).head? = none) :
    checkRoleRemoved st u g "substitute" = st := by
  unfold checkRoleRemoved
  rw [if_neg (by decide), if_pos rfl, h]

/-- Behaviour of the `main` branch of `check_role_removed` when the group in
the event does not justify the first matching transfer: nothing changes. -/
theorem crrKeepMain (st : MSDState) (u g : Nat) (vt : VT)
    (h1 : (st.vts.filter (fun t => decide (t.src = u))).head? = some vt)
    (h2 : st.mems.any (fun m =>
      decide (m.userId = vt.tgt ∧ m.rid = some "substitute" ∧ m.groupId = g)) = false) :
    checkRoleRemoved st u g "main" = st := by
  unfold checkRoleRemoved
  rw [if_pos rfl, h1]
  show (if st.mems.any (fun m =>
      decide (m.userId = vt.tgt ∧ m.rid = some "substitute" ∧ m.groupId = g)) = true
    then { st with vts := st.vts.filter (fun t => decide (t.pk ≠ vt.pk)) } else st) = st
  rw [h2]
  simp

/-- Behaviour of the `main` branch of `check_role_removed` when the group in
the event does justify the first matching transfer: that transfer is deleted,
regardless of any other group. -/
theorem crrDelMain (st : MSDState) (u g : Nat) (vt : VT)
    (h1 : (st.vts.filter (fun t => decide (t.src = u))).head? = some vt)
    (h2 : st.mems.any (fun m =>
      decide (m.userId = vt.tgt ∧ m.rid = some "substitute" ∧ m.groupId = g)) = true) :
    checkRoleRemoved st u g "main" =
      { st with vts := st.vts.filter (fun t => decide (t.pk ≠ vt.pk)) } := by
  unfold checkRoleRemoved
  rw [if_pos rfl, h1]
  show (if st.mems.any (fun m =>
      decide (m.userId = vt.tgt ∧ m.rid = some "substitute" ∧ m.groupId = g)) = true
    then { st with vts := st.vts.filter (fun t => decide (t.pk ≠ vt.pk)) } else st) = _
  rw [h2]
  simp

/-- Behaviour of the `substitute` branch when the event's group does not
justify the first transfer targeting the user: nothing changes. -/
theorem crrKeepSubst (st : MSDState) (u g : Nat) (vt : VT)
    (h1 : (st.vts.filter (fun t => decide (t.tgt = u))).head? = some vt)
    (h2 : st.mems.any (fun m =>
      decide (m.userId = vt.src ∧ m.rid = some "main" ∧ m.groupId = g)) = false) :
    checkRoleRemoved st u g "substitute" = st := by
  unfold checkRoleRemoved
  rw [if_neg (by decide), if_pos rfl, h1]
  show (if st.mems.any (fun m =>
      decide (m.userId = vt.src ∧ m.rid = some "main" ∧ m.groupId = g)) = true
    then { st with vts := st.vts.filter (fun t => decide (t.pk ≠ vt.pk)) } else st) = st
  rw [h2]
  simp

/-- Behaviour of the `substitute` branch when the event's group does justify
the first transfer targeting the user: that transfer is deleted. -/
theorem crrDelSubst (st : MSDState) (u g : Nat) (vt : VT)
    (h1 : (st.vts.filter (fun t => decide (t.tgt = u))).head? = some vt)
    (h2 : st.mems.any (fun m =>
      decide (m.userId = vt.src ∧ m.rid = some "main" ∧ m.groupId = g)) = true) :
    checkRoleRemoved st u g "substitute" =
      { st with vts := st.vts.filter (fun t => decide (t.pk ≠ vt.pk)) } := by
  unfold checkRoleRemoved
  rw [if_neg (by decide), if_pos rfl, h1]
  show (if st.mems.any (fun m =>
      decide (m.userId = vt.src ∧ m.rid = some "main" ∧ m.groupId = g)) = true
    then { st with vts := st.vts.filter (fun t => decide (t.pk ≠ vt.pk)) } else st) = _
  rw [h2]
  simp

/-- Behaviour of `check_role_removed` for any other role id: nothing
changes. -/
theorem crrOther (st : MSDState) (u g : Nat) (r : String)
    (hm : ¬ r = "main") (hb : ¬ r = "substitute") :
    checkRoleRemoved st u g r = st := by
  unfold checkRoleRemoved
  rw [if_neg hm, if_neg hb]

/-- Idempotence of `check_role_removed` under the documented invariant that a
user is the source of at most one transfer and the target of at most one. -/
theorem crrIdem (st : MSDState) (u g : Nat) (r : String)
    (hs : (st.vts.map VT.src).Nodup) (ht : (st.vts.map VT.tgt).Nodup) :
    checkRoleRemoved (checkRoleRemoved st u g r) u g r = checkRoleRemoved st u g r := by
  by_cases hm : r = "main"
  · subst hm
    cases hF : (st.vts.filter (fun t => decide (t.src = u))).head? with
    | none =>
      have h0 := crrNoneMain st u g hF
      rw [h0, h0]
    | some vt =>
      cases hj : st.mems.any (fun m =>
          decide (m.userId = vt.tgt ∧ m.rid = some "substitute" ∧ m.groupId = g)) with
      | false =>
        have h0 := crrKeepMain st u g vt hF hj
        rw [h0, h0]
      | true =>
        rw [crrDelMain st u g vt hF hj]
        exact crrNoneMain { st with vts := st.vts.filter (fun t => decide (t.pk ≠ vt.pk)) }
          u g (by rw [show ({ st with vts := st.vts.filter (fun t => decide (t.pk ≠ vt.pk)) } :
            MSDState).vts = st.vts.filter (fun t => decide (t.pk ≠ vt.pk)) from rfl,
            vtNoneLeft st.vts VT.src hs vt u hF]; rfl)
  · by_cases hb : r = "substitute"
    · subst hb
      cases hF : (st.vts.filter (fun t => decide (t.tgt = u))).head? with
      | none =>
        have h0 := crrNoneSubst st u g hF
        rw [h0, h0]
      | some vt =>
        cases hj : st.mems.any (fun m =>
            decide (m.userId = vt.src ∧ m.rid = some "main" ∧ m.groupId = g)) with
        | false =>
          have h0 := crrKeepSubst st u g vt hF hj
          rw [h0, h0]
        | true =>
          rw [crrDelSubst st u g vt hF hj]
          exact crrNoneSubst { st with vts := st.vts.filter (fun t => decide (t.pk ≠ vt.pk)) }
            u g (by rw [show ({ st with vts := st.vts.filter (fun t => decide (t.pk ≠ vt.pk)) } :
              MSDState).vts = st.vts.filter (fun t => decide (t.pk ≠ vt.pk)) from rfl,
              vtNoneLeft st.vts VT.tgt ht vt u hF]; rfl)
    · have h0 := crrOther st u g r hm hb
      rw [h0, h0]

/-- Idempotence of `check_role_added`: deleting by a filter twice equals
deleting once. -/
theorem craIdem (st : MSDState) (u : Nat) (r : String) :
    checkRoleAdded (checkRoleAdded st u r) u r = checkRoleAdded st u r := by
  by_cases hm : r = "main"
  · subst hm
    simp [checkRoleAdded, List.filter_filter]
  · simp [checkRoleAdded, hm]

/-- Witness state for the amended C1 in which the event's group does not
justify the transfer: target 2 holds `substitute` only in group 11, while the
`main` role of source 1 is being removed from group 10. -/
def c1Keep : MSDState :=
  { mems := [⟨2, 11, some "substitute"⟩], vts := [⟨1, 1, 2⟩] }

/-- C1 (amended): the cleanup handlers delete a transfer exactly when the
group named in the role-removed event itself jointly justifies it.  On a
`main` removal from user `u` in group `g`, the first transfer with source `u`
is kept when its target does not hold `substitute` in `g` and deleted when it
does — regardless of any other group that may still jointly justify the
transfer; symmetrically for `substitute` removals.  Under the documented
invariant that a user is the source of at most one transfer and the target of
at most one, re-running either handler on the resulting state changes
nothing. -/
theorem C1_cleanup_amended :
    (∀ (st : MSDState) (u g : Nat) (vt : VT),
        (st.vts.filter (fun t => decide (t.src = u))).head? = some vt →
          (st.mems.any (fun m =>
              decide (m.userId = vt.tgt ∧ m.rid = some "substitute" ∧ m.groupId = g)) = false →
            checkRoleRemoved st u g "main" = st) ∧
          (st.mems.any (fun m =>
              decide (m.userId = vt.tgt ∧ m.rid = some "substitute" ∧ m.groupId = g)) = true →
            checkRoleRemoved st u g "main" =
              { st with vts := st.vts.filter (fun t => decide (t.pk ≠ vt.pk)) })) ∧
    (∀ (st : MSDState) (u g : Nat) (vt : VT),
        (st.vts.filter (fun t => decide (t.tgt = u))).head? = some vt →
          (st.mems.any (fun m =>
              decide (m.userId = vt.src ∧ m.rid = some "main" ∧ m.groupId = g)) = false →
            checkRoleRemoved st u g "substitute" = st) ∧
          (st.mems.any (fun m =>
              decide (m.userId = vt.src ∧ m.rid = some "main" ∧ m.groupId = g)) = true →
            checkRoleRemoved st u g "substitute" =
              { st with vts := st.vts.filter (fun t => decide (t.pk ≠ vt.pk)) })) ∧
    (∀ (st : MSDState) (u g : Nat) (r : String),
        (st.vts.map VT.src).Nodup → (st.vts.map VT.tgt).Nodup →
          checkRoleRemoved (checkRoleRemoved st u g r) u g r = checkRoleRemoved st u g r) ∧
    (∀ (st : MSDState) (u : Nat) (r : String),
        checkRoleAdded (checkRoleAdded st u r) u r = checkRoleAdded st u r) :=
  ⟨fun st u g vt h1 => ⟨crrKeepMain st u g vt h1, crrDelMain st u g vt h1⟩,
    fun st u g vt h1 => ⟨crrKeepSubst st u g vt h1, crrDelSubst st u g vt h1⟩,
    crrIdem, craIdem⟩

/-- Witness for the amended C1 at concrete states: the transfer is kept when
the event's group holds no `substitute` counterpart, deleted when it does,
and both handlers are idempotent there. -/
theorem C1_cleanup_amended_witness :
    checkRoleRemoved c1Keep 1 10 "main" = c1Keep ∧
      checkRoleRemoved c1St 1 10 "main" =
        { c1St with vts := c1St.vts.filter (fun t => decide (t.pk ≠ (1 : Nat))) } ∧
      checkRoleRemoved (checkRoleRemoved c1St 1 10 "main") 1 10 "main" =
        checkRoleRemoved c1St 1 10 "main" ∧
      checkRoleAdded (checkRoleAdded c1St 2 "main") 2 "main" = checkRoleAdded c1St 2 "main" :=
  ⟨(C1_cleanup_amended.1 c1Keep 1 10 ⟨1, 1, 2⟩ (by decide)).1 (by decide),
    (C1_cleanup_amended.1 c1St 1 10 ⟨1, 1, 2⟩ (by decide)).2 (by decide),
    C1_cleanup_amended.2.2.1 c1St 1 10 "main" (by decide) (by decide),
    C1_cleanup_amended.2.2.2 c1St 2 "main"⟩

/-! ## Claim C2: uniqueness validation of `MainAndSubstVT.check` -/

/-- Counterexample state for claim C2: user 5 already appears as the source
of the existing transfer pk 1 (5 → 9); users 5 and 7 share group 1 with the
`main`/`substitute` roles and user 7 is in no transfer. -/
def c2St : MSDState :=
  { mems := [⟨5, 1, some "main"⟩, ⟨7, 1, some "substitute"⟩],
    vts := [⟨1, 5, 9⟩] }

/-- C2 counterexample: although the source user 5 already appears as source
of another transfer, `check(5, 7)` succeeds — the code only tests the target
side of the uniqueness rule, so the claim that `check` raises whenever the
source already appears in some other transfer is false. -/
theorem C2_check_counterexample :
    vtCheck c2St 5 7 none = .ok () ∧
      c2St.vts.any (fun t => decide (t.src = 5 ∨ t.tgt = 5)) = true := by
  decide

/-- C2 (amended): `check` rejects with the uniqueness error whenever the
target user already appears as source or target of another transfer
(excluding the one being modified); the source side is not examined by
`check` — its uniqueness is left to the database constraint, as the code
comment notes. -/
theorem C2_check_amended :
    ∀ (st : MSDState) (s t : Nat) (md : Option Nat),
      (vtQs st md).any (fun tr => decide (tr.tgt = t ∨ tr.src = t)) = true →
      vtCheck st s t md = .error .targetTaken := by
  intro st s t md h
  unfold vtCheck
  simp only []
  rw [h]
  simp

/-- Witness for the amended C2: user 7 is the target of the existing transfer
4 → 7, so creating a transfer onto 7 is rejected with the uniqueness
error. -/
theorem C2_check_amended_witness :
    vtCheck ⟨[], [⟨1, 4, 7⟩]⟩ 5 7 none = .error .targetTaken :=
  C2_check_amended ⟨[], [⟨1, 4, 7⟩]⟩ 5 7 none (by decide)

/-! ## Claim C7: delegate policy voter set -/

/-- Counterexample state for claim C7: users 1 and 2 hold `main` in group 10
and the transfers 1 → 2 (pk 1) and 2 → 3 (pk 2) are chained. -/
def c7St : MSDState :=
  { mems := [⟨1, 10, some "main"⟩, ⟨2, 10, some "main"⟩],
    vts := [⟨1, 1, 2⟩, ⟨2, 2, 3⟩] }

/-- C7 counterexample: on a chained-transfer state the sequential loop of
`get_voters` yields `{3}` while the claimed simultaneous replacement (remove
every source, add every target) yields `{2, 3}` — so the claim does not hold
for every entity state. -/
theorem C7_delegate_counterexample :
    msdVoterSet c7St = some ({3} : Finset Nat) ∧
      msdSpecVoterSet c7St = {2, 3} ∧
      msdVoterSet c7St ≠ some (msdSpecVoterSet c7St) := by
  have h1 : msdVoterSet c7St = some ({3} : Finset Nat) :=
    opt_eq_some _ ∅ _ (by decide) (by decide)
  have h2 : msdSpecVoterSet c7St = {2, 3} := by decide
  refine ⟨h1, h2, ?_⟩
  rw [h1, h2]
  intro hc
  exact absurd (Option.some.inj hc) (by decide)

/-- Fold lemma for the transfer loop: when every processed transfer's source
is in the accumulator, sources are pairwise distinct, no target is in the
accumulator or equal to any processed source, and targets are pairwise
distinct, the sequential add-target/remove-source loop computes the
simultaneous replacement. -/
theorem msdFoldEq (F : List VT) :
    ∀ (A : Finset Nat),
      (∀ t ∈ F, t.src ∈ A) →
      ((F.map (fun t => t.src)).Nodup) →
      (∀ t ∈ F, t.tgt ∉ A) →
      (∀ t ∈ F, ∀ t2 ∈ F, t.tgt ≠ t2.src) →
      ((F.map (fun t => t.tgt)).Nodup) →
      F.foldl msdStep (some A) =
        some ((A \ (F.map (fun t => t.src)).toFinset) ∪ (F.map (fun t => t.tgt)).toFinset) := by
  induction F with
  | nil =>
    intro A _ _ _ _ _
    simp
  | cons t F ih =>
    intro A h1 h2 h3 h4 h5
    simp only [List.map_cons, List.nodup_cons] at h2 h5
    have hsrcA : t.src ∈ A := h1 t (by simp)
    have htgtsrc : t.tgt ≠ t.src := h4 t (by simp) t (by simp)
    have htgtS : ∀ t2 ∈ F, t.tgt ≠ t2.src := fun t2 ht2 => h4 t (by simp) t2 (by simp [ht2])
    have hstep : msdStep (some A) t = some ((insert t.tgt A).erase t.src) := by
      show (if t.src ∈ insert t.tgt A then some ((insert t.tgt A).erase t.src) else none) = _
      rw [if_pos (Finset.mem_insert_of_mem hsrcA)]
    rw [List.foldl_cons, hstep]
    rw [ih ((insert t.tgt A).erase t.src)
      (fun t2 ht2 => by
        rw [Finset.mem_erase]
        refine ⟨fun hc => h2.1 (by rw [← hc]; exact List.mem_map_of_mem _ ht2), ?_⟩
        exact Finset.mem_insert_of_mem (h1 t2 (by simp [ht2])))
      h2.2
      (fun t2 ht2 => by
        rw [Finset.mem_erase, Finset.mem_insert]
        rintro ⟨-, hc | hc⟩
        · exact h5.1 (by rw [← hc]; exact List.mem_map_of_mem _ ht2)
        · exact h3 t2 (by simp [ht2]) hc)
      (fun t2 ht2 t3 ht3 => h4 t2 (by simp [ht2]) t3 (by simp [ht3]))
      h5.2]
    congr 1
    ext a
    simp only [Finset.mem_union, Finset.mem_sdiff, Finset.mem_erase, Finset.mem_insert,
      List.map_cons, List.toFinset_cons, List.mem_toFinset, List.mem_map]
    by_cases ha : a = t.tgt
    · subst ha
      have hP : ¬∃ x, x ∈ F ∧ x.src = t.tgt := by
        rintro ⟨x, hx, hc⟩
        exact htgtS x hx hc.symm
      constructor
      · intro _
        exact Or.inr (Or.inl rfl)
      · intro _
        exact Or.inl ⟨⟨htgtsrc, Or.inl rfl⟩, hP⟩
    · constructor
      · rintro (⟨⟨hns, hin⟩, hnS⟩ | hT)
        · rcases hin with hin | hin
          · exact absurd hin ha
          · refine Or.inl ⟨hin, ?_⟩
            rintro (hc | hc)
            · exact hns hc
            · exact hnS hc
        · exact Or.inr (Or.inr hT)
      · rintro (⟨hA, hn⟩ | hc | hT)
        · exact Or.inl ⟨⟨fun hc => hn (Or.inl hc), Or.inr hA⟩, fun hc => hn (Or.inr hc)⟩
        · exact absurd hc ha
        · exact Or.inr hT

/-- C7 (amended): for every entity state satisfying the documented
`VoteTransfer` invariants — each user is source of at most one and target of
at most one transfer, no target is another transfer's source, and no target
holds the `main` role — the key set returned by `get_voters` equals the set
of `main` role holders with each applicable transfer's source replaced by its
target (one level only), and every returned voter has weight exactly 1. -/
theorem C7_delegate_amended :
    ∀ st : MSDState,
      (st.vts.map (fun t => t.src)).Nodup →
      (st.vts.map (fun t => t.tgt)).Nodup →
      (∀ t ∈ st.vts, t.tgt ∉ msdMains st) →
      (∀ t ∈ st.vts, ∀ t2 ∈ st.vts, t.tgt ≠ t2.src) →
      msdVoterSet st = some (msdSpecVoterSet st) ∧
        ∀ d, msdVoters st = some d → ∀ p ∈ d, p.2 = 1 := by
  intro st hs ht htm hch
  have hsub : ∀ t ∈ st.vts.filter (fun t => decide (t.src ∈ msdMains st)), t ∈ st.vts :=
    fun t htF => (List.mem_filter.mp htF).1
  have hmain : msdVoterSet st = some (msdSpecVoterSet st) := by
    have heq := msdFoldEq (st.vts.filter (fun t => decide (t.src ∈ msdMains st))) (msdMains st)
      (fun t htF => by
        have h := (List.mem_filter.mp htF).2
        rwa [decide_eq_true_eq] at h)
      (hs.sublist ((List.filter_sublist st.vts).map (fun t => t.src)))
      (fun t htF => htm t (hsub t htF))
      (fun t htF t2 ht2F => hch t (hsub t htF) t2 (hsub t2 ht2F))
      (ht.sublist ((List.filter_sublist st.vts).map (fun t => t.tgt)))
    exact heq
  refine ⟨hmain, ?_⟩
  intro d hd p hp
  rw [msdVoters, hmain] at hd
  have hd2 : (msdSpecVoterSet st).image (fun u => (u, 1)) = d := Option.some.inj hd
  rw [← hd2] at hp
  obtain ⟨u, -, hu⟩ := Finset.mem_image.mp hp
  rw [← hu]

/-- Witness state for the amended C7, the specification's 4.2b scenario:
users 1 and 2 hold `main`, user 3 holds `substitute`, and the single transfer
1 → 3 exists. -/
def c7w : MSDState :=
  { mems := [⟨1, 1, some "main"⟩, ⟨2, 1, some "main"⟩, ⟨3, 1, some "substitute"⟩],
    vts := [⟨1, 1, 3⟩] }

/-- Witness for the amended C7: on the 4.2b scenario the computed voter set
equals the simultaneous-replacement set, which is `{2, 3}` (1 replaced by
3). -/
theorem C7_delegate_amended_witness :
    msdVoterSet c7w = some (msdSpecVoterSet c7w) ∧ msdSpecVoterSet c7w = {2, 3} :=
  ⟨(C7_delegate_amended c7w (by decide) (by decide) (by decide) (by decide)).1, by decide⟩

/-! ## Claim C8: SFS command rejects before any write -/

/-- C8: whenever any of the listed validations of
`SFSSetDelegationVoters.run_job` fails — in particular whenever the sum of
the submitted weights differs from the group's configured vote capacity,
which falsifies `sfsChecksOk` — the command is rejected and the entity state,
including every membership's `votes` value, is returned exactly as it was:
all checks run before any write. -/
theorem C8_sfs_rejects_before_write :
    ∀ (st : SFSState) (ws : List SFSWeight),
      ¬ sfsChecksOk st ws →
      (sfsRun st ws).1.isSome = true ∧ (sfsRun st ws).2 = st := by
  intro st ws h
  unfold sfsRun
  split_ifs with h1 h2 h3 h4 h5 h6 h7 h8
  · exact ⟨rfl, rfl⟩
  · exact ⟨rfl, rfl⟩
  · exact ⟨rfl, rfl⟩
  · exact ⟨rfl, rfl⟩
  · exact ⟨rfl, rfl⟩
  · exact ⟨rfl, rfl⟩
  · exact ⟨rfl, rfl⟩
  · exact ⟨rfl, rfl⟩
  · exfalso
    refine h ⟨?_, ?_, ?_, ?_, ?_, ?_, ?_, ?_⟩
    · simpa using h1
    · simpa using h2
    · exact Nat.pos_of_ne_zero h3
    · exact not_not.mp h4
    · exact not_not.mp h5
    · have h6a : (∀ x ∈ st.mems, x.userId = st.caller → ¬x.rid = some "leader") →
          st.hasChangePerm = true := by simpa using h6
      by_cases hex : ∃ m ∈ st.mems, m.userId = st.caller ∧ m.rid = some "leader"
      · exact Or.inl hex
      · push_neg at hex
        exact Or.inr (h6a hex)
    · simpa using h7
    · simpa using h8

/-- Witness state for C8, mirroring the bad-sum test: a group with 4 votes,
a leader (user 1) and one further member, everyone a potential voter. -/
def c8St : SFSState :=
  { permView := true, notFinished := true, groupVotes := some 4,
    erPolicy := some "gv_auto_before_p", caller := 1, hasChangePerm := false,
    mems := [⟨1, some "leader", none⟩, ⟨2, none, some 3⟩], potVoters := [1, 2] }

/-- Witness for C8: submitting a weight sum of 10 against capacity 4 is
rejected and leaves every membership row, including its `votes` value,
unchanged. -/
theorem C8_sfs_witness :
    (sfsRun c8St [⟨1, 10⟩]).1.isSome = true ∧ (sfsRun c8St [⟨1, 10⟩]).2 = c8St :=
  C8_sfs_rejects_before_write c8St [⟨1, 10⟩] (by decide)

/-! ## Claim C10: active tracking excludes non-active users entirely -/

/-- Membership in an `insSorted` insertion. -/
theorem mem_insSorted (le : α → α → Bool) (x a : α) (l : List α) :
    a ∈ insSorted le x l ↔ a = x ∨ a ∈ l := by
  induction l with
  | nil => simp [insSorted]
  | cons b l ih =>
    by_cases h : le x b = true
    · simp [insSorted, h]
    · simp only [insSorted, h]
      rw [if_neg (by simp [h])]
      simp [ih]
      tauto

/-- The stable sort is membership-preserving. -/
theorem mem_sortStable (le : α → α → Bool) (a : α) (l : List α) :
    a ∈ sortStable le l ↔ a ∈ l := by
  induction l with
  | nil => simp [sortStable]
  | cons b l ih =>
    simp only [sortStable, List.foldr_cons]
    rw [mem_insSorted]
    simp only [sortStable] at ih
    simp [ih]

/-- A defined last-occurrence index implies membership (or a defined
accumulator). -/
theorem lastIdxAux_ne_none (u : Nat) :
    ∀ (l : List Nat) (i : Nat) (acc : Option Nat),
      lastIdxAux u l i acc ≠ none → u ∈ l ∨ acc ≠ none := by
  intro l
  induction l with
  | nil =>
    intro i acc h
    exact Or.inr h
  | cons x xs ih =>
    intro i acc h
    rcases ih (i + 1) (if x = u then some i else acc) h with h2 | h2
    · exact Or.inl (List.mem_cons_of_mem x h2)
    · by_cases hx : x = u
      · exact Or.inl (hx ▸ List.mem_cons_self x xs)
      · rw [if_neg hx] at h2
        exact Or.inr h2

/-- Every user of a `memberList` has a defined position in `user_order`. -/
theorem mem_memberList (st : MSAState) (rpk gpk u : Nat)
    (hu : u ∈ memberList st rpk gpk) : (userOrder st u).isSome = true := by
  unfold memberList at hu
  rw [mem_sortStable] at hu
  obtain ⟨m, hm, hmu⟩ := List.mem_map.mp hu
  rw [List.mem_filter] at hm
  have h := hm.2
  simp only [Bool.and_eq_true, decide_eq_true_eq] at h
  rw [← hmu]
  exact h.1.1

/-- The inner pick loop only ever picks users from its member list. -/
theorem pickGroup_picked_pred (P : Nat → Prop) (g : Nat) :
    ∀ (users : List Nat) (a : Alloc),
      (∀ u ∈ a.picked, P u) → (∀ u ∈ users, P u) →
      ∀ u ∈ (pickGroup g users a).picked, P u := by
  intro users
  induction users with
  | nil =>
    intro a ha _
    exact ha
  | cons u rest ih =>
    intro a ha hu
    unfold pickGroup
    by_cases hp : a.power g = 0
    · rw [if_pos hp]
      exact ha
    · rw [if_neg hp]
      by_cases hin : u ∈ a.picked
      · rw [if_pos hin]
        exact ih a ha (fun v hv => hu v (List.mem_cons_of_mem u hv))
      · rw [if_neg hin]
        refine ih _ ?_ (fun v hv => hu v (List.mem_cons_of_mem u hv))
        intro v hv
        rcases Finset.mem_insert.mp hv with hv | hv
        · exact hv ▸ hu u (List.mem_cons_self u rest)
        · exact ha v hv

/-- The per-role group fold only picks users from its member lists. -/
theorem foldGroups_picked_pred (st : MSAState) (P : Nat → Prop) (rpk : Nat)
    (hmem : ∀ gpk u, u ∈ memberList st rpk gpk → P u) :
    ∀ (gs : List MSAGroup) (a : Alloc),
      (∀ u ∈ a.picked, P u) →
      ∀ u ∈ (gs.foldl (fun b g => pickGroup g.pk (memberList st rpk g.pk) b) a).picked, P u := by
  intro gs
  induction gs with
  | nil =>
    intro a ha
    exact ha
  | cons g gs ih =>
    intro a ha
    rw [List.foldl_cons]
    exact ih _ (pickGroup_picked_pred P g.pk (memberList st rpk g.pk) a ha
      (fun u hu => hmem g.pk u hu))

/-- C10: for the Main/Substitute+Active policy with active tracking enabled,
every key of the returned mapping appears in the active-user log — users
absent from the log are excluded from allocation entirely, not merely
ordered last. -/
theorem C10_active_log_subset :
    ∀ (st : MSAState) (d : Finset (Nat × Nat)),
      st.activeOn = true →
      msaVoters st = some d →
      ∀ p ∈ d, p.1 ∈ st.activeUsers := by
  intro st d hact hd p hp
  have hP : ∀ rpk gpk u, u ∈ memberList st rpk gpk → u ∈ st.activeUsers := by
    intro rpk gpk u hu
    have hs := mem_memberList st rpk gpk u hu
    unfold userOrder at hs
    rw [if_pos hact] at hs
    rcases lastIdxAux_ne_none u st.activeUsers 0 none (by
      intro hc
      rw [hc] at hs
      exact Bool.false_ne_true hs) with h | h
    · exact h
    · exact absurd rfl h
  unfold msaVoters at hd
  cases hr : msaAlloc st with
  | none =>
    rw [hr] at hd
    exact absurd hd (by simp)
  | some a =>
    rw [hr] at hd
    have hda : a.picked.image (fun u => (u, 1)) = d := Option.some.inj hd
    rw [← hda] at hp
    obtain ⟨u, hu, hup⟩ := Finset.mem_image.mp hp
    have hua : ∀ v ∈ a.picked, v ∈ st.activeUsers := by
      unfold msaAlloc at hr
      cases hro : msaRoles st with
      | none =>
        rw [hro] at hr
        exact absurd hr (by simp)
      | some pr =>
        rw [hro] at hr
        have ha : msaAllocCore st pr.1.pk pr.2.pk = a := Option.some.inj (by simpa using hr)
        rw [← ha]
        unfold msaAllocCore
        rw [List.foldl_cons, List.foldl_cons, List.foldl_nil]
        refine foldGroups_picked_pred st (fun v => v ∈ st.activeUsers) pr.2.pk
          (fun gpk v hv => hP pr.2.pk gpk v hv) (msaGroupsWith st) _ ?_
        refine foldGroups_picked_pred st (fun v => v ∈ st.activeUsers) pr.1.pk
          (fun gpk v hv => hP pr.1.pk gpk v hv) (msaGroupsWith st) _ ?_
        intro v hv
        exact absurd hv (Finset.not_mem_empty v)
    rw [← hup]
    exact hua u hu

/-- Witness state for C10: active tracking on with log [1, 3]; user 2 holds
`main` in a group with unused capacity but never marked themselves active. -/
def c10w : MSAState :=
  { groupRoles := [⟨100, "main"⟩, ⟨200, "substitute"⟩],
    activeOn := true,
    activeUsers := [1, 3],
    participants := [],
    groups := [⟨1, some 2⟩],
    mems := [⟨1, some 100, 1, none⟩, ⟨2, some 100, 1, none⟩, ⟨3, some 200, 1, none⟩] }

/-- Witness for C10: the computed mapping is exactly users 1 and 3 — the
non-active `main` holder 2 is skipped even with capacity to spare — and every
returned key is in the active log. -/
theorem C10_active_log_subset_witness :
    msaVoters c10w = some {(1, 1), (3, 1)} ∧
      ∀ p ∈ ({(1, 1), (3, 1)} : Finset (Nat × Nat)), p.1 ∈ c10w.activeUsers := by
  have h : msaVoters c10w = some {(1, 1), (3, 1)} := opt_eq_some _ ∅ _ (by decide) (by decide)
  exact ⟨h, C10_active_log_subset c10w {(1, 1), (3, 1)} rfl h⟩

/-! ## Claim C9: the audit side effect never changes the computed result -/

/-- The role query does not read membership rows. -/
theorem msaRoles_mems (st : MSAState) (ms : List MSAMem) :
    msaRoles { st with mems := ms } = msaRoles st := rfl

/-- The positive-capacity group query does not read membership rows. -/
theorem msaGroupsWith_mems (st : MSAState) (ms : List MSAMem) :
    msaGroupsWith { st with mems := ms } = msaGroupsWith st := rfl

/-- Filtering and projecting to user ids ignores a votes-only rewrite of the
membership rows. -/
theorem filter_map_votes (p : MSAMem → Bool) (f : MSAMem → Option Nat)
    (hp : ∀ m, p { m with votes := f m } = p m) :
    ∀ l : List MSAMem,
      ((l.map (fun m => { m with votes := f m })).filter p).map (fun m => m.userId)
        = (l.filter p).map (fun m => m.userId) := by
  intro l
  induction l with
  | nil => rfl
  | cons m l ih =>
    simp only [List.map_cons, List.filter_cons, hp m]
    cases p m with
    | false => simp [ih]
    | true => simp [ih]

/-- A `memberList` is unchanged by a votes-only rewrite of the membership
rows: the allocation never reads the audit `votes` field. -/
theorem memberList_upd (st : MSAState) (f : MSAMem → Option Nat) (rpk gpk : Nat) :
    memberList { st with mems := st.mems.map (fun m => { m with votes := f m }) } rpk gpk
      = memberList st rpk gpk := by
  exact congrArg
    (sortStable (fun a b => decide ((userOrder st a).getD 0 ≤ (userOrder st b).getD 0)))
    (filter_map_votes
      (fun m => (userOrder st m.userId).isSome && decide (m.groupId = gpk) &&
        decide (m.roleFk = some rpk))
      f (fun _ => rfl) st.mems)

/-- The allocation computed after the `update_memberships=True` writes equals
the allocation computed before them. -/
theorem msaAlloc_upd (st : MSAState) (a : Alloc) :
    msaAlloc (msaApplyUpd st a) = msaAlloc st := by
  unfold msaAlloc msaApplyUpd
  rw [msaRoles_mems]
  refine congrFun (congrArg Option.map (funext fun pr => ?_)) (msaRoles st)
  unfold msaAllocCore
  rw [msaGroupsWith_mems]
  simp only [memberList_upd]

/-- C9: calling `get_voters(update_memberships=True)` and then
`get_voters(update_memberships=False)` on the resulting state yields the same
mapping as calling `get_voters(update_memberships=False)` on the starting
state — the audit writes to `Membership.votes` never change the computed
result. -/
theorem C9_update_then_compute :
    ∀ (st : MSAState) (d : Finset (Nat × Nat)) (st2 : MSAState),
      msaVotersUpd st = some (d, st2) →
      msaVoters st2 = msaVoters st := by
  intro st d st2 h
  unfold msaVotersUpd at h
  cases hr : msaAlloc st with
  | none =>
    rw [hr] at h
    exact absurd h (by simp)
  | some a =>
    rw [hr] at h
    have hpair := Option.some.inj h
    have hst2 : msaApplyUpd st a = st2 := congrArg Prod.snd hpair
    unfold msaVoters
    rw [← hst2, msaAlloc_upd]

/-- Witness state for C9: one group of capacity 1 with a single `main`
member, active tracking off. -/
def st9w : MSAState :=
  { groupRoles := [⟨100, "main"⟩, ⟨200, "substitute"⟩],
    activeOn := false,
    activeUsers := [],
    participants := [10],
    groups := [⟨1, some 1⟩],
    mems := [⟨10, some 100, 1, none⟩] }

/-- State after the audit writes of C9's witness: the picked member's row now
carries `votes = 1`. -/
def st9x : MSAState := { st9w with mems := [⟨10, some 100, 1, some 1⟩] }

/-- Witness for C9: on the concrete state the update call returns the mapping
with the mutated state, and recomputing on the mutated state agrees with the
original computation. -/
theorem C9_update_then_compute_witness :
    msaVotersUpd st9w = some ({(10, 1)}, st9x) ∧ msaVoters st9x = msaVoters st9w := by
  have h : msaVotersUpd st9w = some ({(10, 1)}, st9x) :=
    opt_eq_some _ (∅, st9w) _ (by decide) (by decide)
  exact ⟨h, C9_update_then_compute st9w {(10, 1)} st9x h⟩

/-! ## Claim C3: positivity of returned weights -/

/-- Counterexample state for claim C3: the meeting has only the `skr` hub
group, occupied by user 7, with no tagged groups and no delegations. -/
def c3Neg : SKRState :=
  { groups := [⟨1, "skr", [], none⟩], mems := [(1, 7)], activeUsers := [] }

/-- C3 counterexample: on the degenerate SKR configuration with no other
voters and no incoming delegations, `get_voters` returns without raising and
assigns the hub occupant the weight `0 + 2 * 0 - 1 = -1`, which is not a
positive integer — the unguarded hub formula falsifies the universal
positivity claim. -/
theorem C3_positive_weight_counterexample :
    skrVoters c3Neg = .ok [(7, -1)] ∧ ¬ (0 < (-1 : Int)) := by
  decide

/-- Every entry of the SKR weight dict is at least 1. -/
theorem skrWeightMap_pos (st : SKRState) : ∀ q ∈ skrWeightMap st, 1 ≤ q.2 := by
  intro q hq
  obtain ⟨g, -, hg⟩ := List.mem_map.mp hq
  rw [← hg]
  have := Int.natCast_nonneg (skrIncoming st g.pk)
  omega

/-- A dict upsert preserves a predicate on all stored values. -/
theorem upsertInt_forall (P : Int → Prop) (l : List (Nat × Int)) (k : Nat) (v : Int)
    (hl : ∀ p ∈ l, P p.2) (hv : P v) : ∀ p ∈ upsertInt l k v, P p.2 := by
  intro p hp
  unfold upsertInt at hp
  by_cases h : l.any (fun p => decide (p.1 = k)) = true
  · rw [if_pos h] at hp
    obtain ⟨q, hq, hqp⟩ := List.mem_map.mp hp
    by_cases hk : q.1 = k
    · rw [if_pos hk] at hqp
      rw [← hqp]
      exact hv
    · rw [if_neg hk] at hqp
      rw [← hqp]
      exact hl q hq
  · rw [if_neg h] at hp
    rcases List.mem_append.mp hp with hp | hp
    · exact hl p hp
    · rw [List.mem_singleton.mp hp]
      exact hv

/-- The voter fold of the SKR policy only stores weights that are at
least 1. -/
theorem skrFoldPos (st : SKRState) :
    ∀ (l : List (Nat × Nat)) (acc : List (Nat × Int)),
      (∀ p ∈ acc, 1 ≤ p.2) →
      ∀ p ∈ l.foldl (fun acc m =>
          match (skrWeightMap st).find? (fun q => decide (q.1 = m.1)) with
          | some q => if q.2 = 0 then acc else upsertInt acc m.2 q.2
          | none => acc) acc, 1 ≤ p.2 := by
  intro l
  induction l with
  | nil =>
    intro acc hacc
    exact hacc
  | cons m l ih =>
    intro acc hacc
    rw [List.foldl_cons]
    cases hf : (skrWeightMap st).find? (fun q => decide (q.1 = m.1)) with
    | none => exact ih acc hacc
    | some q =>
      dsimp only
      by_cases hq0 : q.2 = 0
      · rw [if_pos hq0]
        exact ih acc hacc
      · rw [if_neg hq0]
        exact ih (upsertInt acc m.2 q.2) (upsertInt_forall _ acc m.2 q.2 hacc
          (skrWeightMap_pos st q (List.mem_of_find?_eq_some hf)))

/-- All values of the pre-hub SKR dict are at least 1. -/
theorem skrVoters0_pos (st : SKRState) : ∀ p ∈ skrVoters0 st, 1 ≤ p.2 :=
  skrFoldPos st (skrGroupToUser st) [] (by intro p hp; exact absurd hp (List.not_mem_nil p))

/-- C3 (amended): whenever `get_voters` returns without raising, every value
of the returned mapping is a positive integer for the Main/Substitute+Active
policy (all 1), the Main/Substitute+Delegate policy (all 1) and the SKK Fum
policy (1 or 2); for the SKR Ägarråd policy every value is positive except
possibly the hub occupant's, whose unguarded weight
`sum(others) + 2 * incoming - 1` can be zero or negative. -/
theorem C3_weights_amended :
    (∀ (st : MSAState) (d : Finset (Nat × Nat)), msaVoters st = some d →
      ∀ p ∈ d, p.2 = 1) ∧
    (∀ (st : MSDState) (d : Finset (Nat × Nat)), msdVoters st = some d →
      ∀ p ∈ d, p.2 = 1) ∧
    (∀ (st : SKKState) (d : Finset (Nat × Nat)), skkVoters st = some d →
      ∀ p ∈ d, p.2 = 1 ∨ p.2 = 2) ∧
    (∀ (st : SKRState) (d : List (Nat × Int)), skrVoters st = .ok d →
      ∀ p ∈ d, 1 ≤ p.2 ∨ skrHubUser st = some p.1) := by
  refine ⟨?_, ?_, ?_, ?_⟩
  · intro st d hd p hp
    unfold msaVoters at hd
    cases hr : msaAlloc st with
    | none =>
      rw [hr] at hd
      exact absurd hd (by simp)
    | some a =>
      rw [hr] at hd
      rw [← Option.some.inj hd] at hp
      obtain ⟨u, -, hu⟩ := Finset.mem_image.mp hp
      rw [← hu]
  · intro st d hd p hp
    unfold msdVoters at hd
    cases hr : msdVoterSet st with
    | none =>
      rw [hr] at hd
      exact absurd hd (by simp)
    | some vs =>
      rw [hr] at hd
      rw [← Option.some.inj hd] at hp
      obtain ⟨u, -, hu⟩ := Finset.mem_image.mp hp
      rw [← hu]
  · intro st d hd p hp
    unfold skkVoters at hd
    cases hr : skkAlloc st with
    | none =>
      rw [hr] at hd
      exact absurd hd (by simp)
    | some a =>
      rw [hr] at hd
      rw [← Option.some.inj hd] at hp
      obtain ⟨u, -, hu⟩ := Finset.mem_image.mp hp
      rw [← hu]
      by_cases hs : u ∈ a.sec
      · rw [if_pos hs]
        exact Or.inr rfl
      · rw [if_neg hs]
        exact Or.inl rfl
  · intro st d hd p hp
    unfold skrVoters at hd
    cases hskr : (st.groups.filter (fun g => decide (g.gid = "skr"))).head? with
    | none =>
      rw [hskr] at hd
      exact absurd hd (by simp)
    | some skr =>
      rw [hskr] at hd
      dsimp only at hd
      by_cases hov : st.groups.any (fun g => skrTagged g "kommun" && skrTagged g "region") = true
      · rw [if_pos hov] at hd
        exact absurd hd (by simp)
      · rw [if_neg hov] at hd
        cases hfm : skrFirstMember st skr.pk with
        | none =>
          rw [hfm] at hd
          dsimp only at hd
          rw [← Except.ok.inj hd] at hp
          exact Or.inl (skrVoters0_pos st p hp)
        | some su =>
          rw [hfm] at hd
          dsimp only at hd
          by_cases hcol : (skrVoters0 st).any (fun q => decide (q.1 = su)) = true
          · rw [if_pos hcol] at hd
            exact absurd hd (by simp)
          · rw [if_neg hcol] at hd
            rw [← Except.ok.inj hd] at hp
            rcases List.mem_append.mp hp with hp | hp
            · exact Or.inl (skrVoters0_pos st p hp)
            · rw [List.mem_singleton.mp hp]
              refine Or.inr ?_
              unfold skrHubUser
              rw [hskr]
              exact hfm

/-- Witness state for C3, Main/Substitute+Active: one main member. -/
def c3a : MSAState :=
  { groupRoles := [⟨1, "main"⟩, ⟨2, "substitute"⟩], activeOn := false, activeUsers := [],
    participants := [5], groups := [⟨1, some 1⟩], mems := [⟨5, some 1, 1, none⟩] }

/-- Witness state for C3, Main/Substitute+Delegate: one main member, no
transfers. -/
def c3b : MSDState := { mems := [⟨5, 1, some "main"⟩], vts := [] }

/-- Witness state for C3, SKK Fum: one proxy-role member, capacity 1. -/
def c3c : SKKState :=
  { groupRoles := [⟨1, "del_1"⟩, ⟨2, "del_2"⟩, ⟨3, "suppleant"⟩],
    groups := [⟨1, some 1⟩], potVoters := [5], activeOn := false, activeUsers := [],
    mems := [⟨5, some 2, 1⟩] }

/-- Witness state for C3, SKR: one kommun group with active occupant 8 and
the hub occupied by 7 (hub weight `1 + 0 - 1 = 0`, hitting the amended
exception). -/
def c3d : SKRState :=
  { groups := [⟨1, "skr", [], none⟩, ⟨2, "sthlm", ["kommun"], none⟩],
    mems := [(2, 8), (1, 7)], activeUsers := [8] }

/-- Witness for the amended C3: concrete runs of all four policies whose
returned weights satisfy the amended positivity statement. -/
theorem C3_weights_amended_witness :
    (msaVoters c3a = some {(5, 1)} ∧ ∀ p ∈ ({(5, 1)} : Finset (Nat × Nat)), p.2 = 1) ∧
      (msdVoters c3b = some {(5, 1)} ∧ ∀ p ∈ ({(5, 1)} : Finset (Nat × Nat)), p.2 = 1) ∧
      (skkVoters c3c = some {(5, 1)} ∧
        ∀ p ∈ ({(5, 1)} : Finset (Nat × Nat)), p.2 = 1 ∨ p.2 = 2) ∧
      (skrVoters c3d = .ok [(8, 1), (7, 0)] ∧
        ∀ p ∈ [((8 : Nat), (1 : Int)), (7, 0)], 1 ≤ p.2 ∨ skrHubUser c3d = some p.1) := by
  have ha : msaVoters c3a = some {(5, 1)} := opt_eq_some _ ∅ _ (by decide) (by decide)
  have hb : msdVoters c3b = some {(5, 1)} := opt_eq_some _ ∅ _ (by decide) (by decide)
  have hc : skkVoters c3c = some {(5, 1)} := opt_eq_some _ ∅ _ (by decide) (by decide)
  have hd : skrVoters c3d = .ok [(8, 1), (7, 0)] := by decide
  exact ⟨⟨ha, C3_weights_amended.1 c3a _ ha⟩, ⟨hb, C3_weights_amended.2.1 c3b _ hb⟩,
    ⟨hc, C3_weights_amended.2.2.1 c3c _ hc⟩, ⟨hd, C3_weights_amended.2.2.2 c3d _ hd⟩⟩

/-! ## Claim C4: per-group capacity bound -/

/-- Capacity accounting of the inner pick loop: remaining power of a group
plus the picks charged to it is invariant. -/
theorem pickGroup_cap (gpk : Nat) (users : List Nat) :
    ∀ (a : Alloc) (x : Nat),
      (pickGroup gpk users a).power x +
          ((pickGroup gpk users a).log.filter (fun p => decide (p.1 = x))).length =
        a.power x + ((a.log.filter (fun p => decide (p.1 = x))).length) := by
  induction users with
  | nil =>
    intro a x
    rfl
  | cons u rest ih =>
    intro a x
    simp only [pickGroup]
    by_cases hp : a.power gpk = 0
    · rw [if_pos hp]
    · rw [if_neg hp]
      by_cases hin : u ∈ a.picked
      · rw [if_pos hin]
        exact ih a x
      · rw [if_neg hin]
        rw [ih _ x]
        by_cases hx : x = gpk
        · subst hx
          have hlen : ((a.log ++ [(x, u)]).filter (fun p => decide (p.1 = x))).length =
              (a.log.filter (fun p => decide (p.1 = x))).length + 1 := by
            simp [List.filter_append]
          simp only [eq_self_iff_true, if_true, hlen]
          omega
        · have hx2 : ¬gpk = x := fun h => hx h.symm
          have hlen : ((a.log ++ [(gpk, u)]).filter (fun p => decide (p.1 = x))).length =
              (a.log.filter (fun p => decide (p.1 = x))).length := by
            simp [List.filter_append, hx2]
          simp only [if_neg hx, hlen]

/-- The picked set always equals the set of users in the pick log, without
duplicates. -/
theorem pickGroup_log_inv (gpk : Nat) (users : List Nat) :
    ∀ a : Alloc,
      a.picked = (a.log.map Prod.snd).toFinset → (a.log.map Prod.snd).Nodup →
      (pickGroup gpk users a).picked = ((pickGroup gpk users a).log.map Prod.snd).toFinset ∧
        ((pickGroup gpk users a).log.map Prod.snd).Nodup := by
  induction users with
  | nil =>
    intro a h1 h2
    exact ⟨h1, h2⟩
  | cons u rest ih =>
    intro a h1 h2
    simp only [pickGroup]
    by_cases hp : a.power gpk = 0
    · rw [if_pos hp]
      exact ⟨h1, h2⟩
    · rw [if_neg hp]
      by_cases hin : u ∈ a.picked
      · rw [if_pos hin]
        exact ih a h1 h2
      · rw [if_neg hin]
        refine ih _ ?_ ?_
        · show insert u a.picked = ((a.log ++ [(gpk, u)]).map Prod.snd).toFinset
          rw [List.map_append, List.toFinset_append, h1]
          rw [Finset.insert_eq, Finset.union_comm]
          rfl
        · show ((a.log ++ [(gpk, u)]).map Prod.snd).Nodup
          rw [List.map_append, List.nodup_append]
          refine ⟨h2, by simp, ?_⟩
          intro v hv
          simp only [List.map_cons, List.map_nil, List.mem_singleton]
          intro hc
          rw [hc] at hv
          rw [← List.mem_toFinset, ← h1] at hv
          exact hin hv

/-- Capacity accounting lifted over the per-role group fold. -/
theorem foldGroups_cap (st : MSAState) (rpk : Nat) :
    ∀ (gs : List MSAGroup) (a : Alloc) (x : Nat),
      (gs.foldl (fun b g => pickGroup g.pk (memberList st rpk g.pk) b) a).power x +
          (((gs.foldl (fun b g => pickGroup g.pk (memberList st rpk g.pk) b) a).log.filter
            (fun p => decide (p.1 = x))).length) =
        a.power x + ((a.log.filter (fun p => decide (p.1 = x))).length) := by
  intro gs
  induction gs with
  | nil =>
    intro a x
    rfl
  | cons g gs ih =>
    intro a x
    rw [List.foldl_cons]
    exact (ih _ x).trans (pickGroup_cap g.pk (memberList st rpk g.pk) a x)

/-- Log/pickset agreement lifted over the per-role group fold. -/
theorem foldGroups_log_inv (st : MSAState) (rpk : Nat) :
    ∀ (gs : List MSAGroup) (a : Alloc),
      a.picked = (a.log.map Prod.snd).toFinset → (a.log.map Prod.snd).Nodup →
      (gs.foldl (fun b g => pickGroup g.pk (memberList st rpk g.pk) b) a).picked =
          (((gs.foldl (fun b g => pickGroup g.pk (memberList st rpk g.pk) b) a).log.map
            Prod.snd).toFinset) ∧
        (((gs.foldl (fun b g => pickGroup g.pk (memberList st rpk g.pk) b) a).log.map
          Prod.snd).Nodup) := by
  intro gs
  induction gs with
  | nil =>
    intro a h1 h2
    exact ⟨h1, h2⟩
  | cons g gs ih =>
    intro a h1 h2
    rw [List.foldl_cons]
    obtain ⟨k1, k2⟩ := pickGroup_log_inv g.pk (memberList st rpk g.pk) a h1 h2
    exact ih _ k1 k2

/-- Full capacity accounting for the Main/Substitute+Active allocation: the
picks charged to a group plus its remaining power equal its configured
capacity. -/
theorem msaAllocCore_cap (st : MSAState) (mainPk substPk x : Nat) :
    (msaAllocCore st mainPk substPk).power x +
        (((msaAllocCore st mainPk substPk).log.filter (fun p => decide (p.1 = x))).length) =
      powerInit (msaGroupsWith st) x := by
  unfold msaAllocCore
  simp only [List.foldl_cons, List.foldl_nil]
  have h1 := foldGroups_cap st substPk (msaGroupsWith st)
    ((msaGroupsWith st).foldl
      (fun b g => pickGroup g.pk (memberList st mainPk g.pk) b)
      ⟨powerInit (msaGroupsWith st), ∅, []⟩) x
  have h2 := foldGroups_cap st mainPk (msaGroupsWith st)
    ⟨powerInit (msaGroupsWith st), ∅, []⟩ x
  have h3 : (⟨powerInit (msaGroupsWith st), ∅, []⟩ : Alloc).power x +
      (((⟨powerInit (msaGroupsWith st), ∅, []⟩ : Alloc).log.filter
        (fun p => decide (p.1 = x))).length) = powerInit (msaGroupsWith st) x := rfl
  omega

/-- Log/pickset agreement for the full Main/Substitute+Active allocation. -/
theorem msaAllocCore_log_inv (st : MSAState) (mainPk substPk : Nat) :
    (msaAllocCore st mainPk substPk).picked =
        (((msaAllocCore st mainPk substPk).log.map Prod.snd).toFinset) ∧
      (((msaAllocCore st mainPk substPk).log.map Prod.snd).Nodup) := by
  unfold msaAllocCore
  simp only [List.foldl_cons, List.foldl_nil]
  obtain ⟨k1, k2⟩ := foldGroups_log_inv st mainPk (msaGroupsWith st)
    ⟨powerInit (msaGroupsWith st), ∅, []⟩ (by simp) (by simp)
  exact foldGroups_log_inv st substPk (msaGroupsWith st) _ k1 k2

/-- Vote power never increases along `iterate_and_pick_voters`. -/
theorem skkIter_power_le (l : List (Nat × Nat)) :
    ∀ (s : IterSt) (x : Nat), (skkIter l s).power x ≤ s.power x := by
  induction l with
  | nil =>
    intro s x
    exact le_refl _
  | cons p rest ih =>
    intro s x
    obtain ⟨g, u⟩ := p
    simp only [skkIter]
    by_cases h1 : u ∈ s.pick
    · rw [if_pos h1]
      exact ih s x
    · rw [if_neg h1]
      by_cases h2 : s.power g ≠ 0
      · rw [if_pos h2]
        refine le_trans (ih _ x) ?_
        show (if x = g then s.power g - 1 else s.power x) ≤ s.power x
        by_cases hx : x = g
        · subst hx
          rw [if_pos rfl]
          exact Nat.sub_le _ _
        · rw [if_neg hx]
      · rw [if_neg h2]
        exact ih s x

/-- Capacity accounting of `iterate_and_pick_voters`: remaining power of a
group plus the picks charged to it is invariant. -/
theorem skkIter_cap (l : List (Nat × Nat)) :
    ∀ (s : IterSt) (x : Nat),
      (skkIter l s).power x +
          (((skkIter l s).lg.filter (fun p => decide (p.1 = x))).length) =
        s.power x + ((s.lg.filter (fun p => decide (p.1 = x))).length) := by
  induction l with
  | nil =>
    intro s x
    rfl
  | cons p rest ih =>
    intro s x
    obtain ⟨g, u⟩ := p
    simp only [skkIter]
    by_cases h1 : u ∈ s.pick
    · rw [if_pos h1]
      exact ih s x
    · rw [if_neg h1]
      by_cases h2 : s.power g ≠ 0
      · rw [if_pos h2]
        rw [ih _ x]
        by_cases hx : x = g
        · subst hx
          have hlen : ((s.lg ++ [(x, u)]).filter (fun p => decide (p.1 = x))).length =
              (s.lg.filter (fun p => decide (p.1 = x))).length + 1 := by
            simp [List.filter_append]
          simp only [eq_self_iff_true, if_true, hlen]
          omega
        · have hx2 : ¬g = x := fun h => hx h.symm
          have hlen : ((s.lg ++ [(g, u)]).filter (fun p => decide (p.1 = x))).length =
              (s.lg.filter (fun p => decide (p.1 = x))).length := by
            simp [List.filter_append, hx2]
          simp only [if_neg hx, hlen]
      · rw [if_neg h2]
        exact ih s x

/-- The pickset always equals the set of users in its pick log, without
duplicates. -/
theorem skkIter_log_inv (l : List (Nat × Nat)) :
    ∀ s : IterSt,
      s.pick = (s.lg.map Prod.snd).toFinset → (s.lg.map Prod.snd).Nodup →
      (skkIter l s).pick = (((skkIter l s).lg.map Prod.snd).toFinset) ∧
        (((skkIter l s).lg.map Prod.snd).Nodup) := by
  induction l with
  | nil =>
    intro s h1 h2
    exact ⟨h1, h2⟩
  | cons p rest ih =>
    intro s h1 h2
    obtain ⟨g, u⟩ := p
    simp only [skkIter]
    by_cases hin : u ∈ s.pick
    · rw [if_pos hin]
      exact ih s h1 h2
    · rw [if_neg hin]
      by_cases h2p : s.power g ≠ 0
      · rw [if_pos h2p]
        refine ih _ ?_ ?_
        · show insert u s.pick = ((s.lg ++ [(g, u)]).map Prod.snd).toFinset
          rw [List.map_append, List.toFinset_append, h1]
          rw [Finset.insert_eq, Finset.union_comm]
          rfl
        · show ((s.lg ++ [(g, u)]).map Prod.snd).Nodup
          rw [List.map_append, List.nodup_append]
          refine ⟨h2, by simp, ?_⟩
          intro v hv
          simp only [List.map_cons, List.map_nil, List.mem_singleton]
          intro hc
          rw [hc] at hv
          rw [← List.mem_toFinset, ← h1] at hv
          exact hin hv
      · rw [if_neg h2p]
        exact ih s h1 h2

/-- Domination: running `iterate_and_pick_voters` over the same rows from a
smaller pickset and pointwise smaller power yields a pickset contained in the
larger run's pickset and pointwise smaller power.  This is the key fact
making every secondary pick a repeat of a primary pick. -/
theorem skkIter_dom (l : List (Nat × Nat)) :
    ∀ (s1 s2 : IterSt),
      s2.pick ⊆ s1.pick → (∀ x, s2.power x ≤ s1.power x) →
      (skkIter l s2).pick ⊆ (skkIter l s1).pick ∧
        ∀ x, (skkIter l s2).power x ≤ (skkIter l s1).power x := by
  induction l with
  | nil =>
    intro s1 s2 hp hw
    exact ⟨hp, hw⟩
  | cons p rest ih =>
    intro s1 s2 hp hw
    obtain ⟨g, u⟩ := p
    simp only [skkIter]
    by_cases h2 : u ∈ s2.pick
    · rw [if_pos h2, if_pos (hp h2)]
      exact ih s1 s2 hp hw
    · rw [if_neg h2]
      by_cases h2p : s2.power g ≠ 0
      · rw [if_pos h2p]
        by_cases h1 : u ∈ s1.pick
        · rw [if_pos h1]
          refine ih s1 _ ?_ ?_
          · intro v hv
            rcases Finset.mem_insert.mp hv with rfl | hv
            · exact h1
            · exact hp hv
          · intro x
            show (if x = g then s2.power g - 1 else s2.power x) ≤ s1.power x
            by_cases hx : x = g
            · subst hx
              rw [if_pos rfl]
              exact le_trans (Nat.sub_le _ _) (hw x)
            · rw [if_neg hx]
              exact hw x
        · rw [if_neg h1]
          have h1p : s1.power g ≠ 0 := by
            intro hc
            have hwg := hw g
            rw [hc] at hwg
            exact h2p (Nat.le_zero.mp hwg)
          rw [if_pos h1p]
          refine ih _ _ ?_ ?_
          · intro v hv
            rcases Finset.mem_insert.mp hv with rfl | hv
            · exact Finset.mem_insert_self v s1.pick
            · exact Finset.mem_insert_of_mem (hp hv)
          · intro x
            show (if x = g then s2.power g - 1 else s2.power x) ≤
              (if x = g then s1.power g - 1 else s1.power x)
            by_cases hx : x = g
            · rw [if_pos hx, if_pos hx]
              exact Nat.sub_le_sub_right (hw g) 1
            · rw [if_neg hx, if_neg hx]
              exact hw x
      · rw [if_neg h2p]
        by_cases h1 : u ∈ s1.pick
        · rw [if_pos h1]
          exact ih s1 s2 hp hw
        · rw [if_neg h1]
          by_cases h1p : s1.power g ≠ 0
          · rw [if_pos h1p]
            refine ih _ s2 ?_ ?_
            · exact fun v hv => Finset.mem_insert_of_mem (hp hv)
            · intro x
              show s2.power x ≤ (if x = g then s1.power g - 1 else s1.power x)
              by_cases hx : x = g
              · subst hx
                rw [if_pos rfl, not_ne_iff.mp h2p]
                exact Nat.zero_le _
              · rw [if_neg hx]
                exact hw x
          · rw [if_neg h1p]
            exact ih s1 s2 hp hw

/-- Capacity accounting across the six passes of `SKKFum.get_voters`: the
picks charged to a group in the primary and secondary logs together never
exceed the group's initial vote power. -/
theorem skkChainCap (fmL dgL spL : List (Nat × Nat)) (p0 : Nat → Nat) (x : Nat)
    (s1 s2 t1 t2 s3 t3 : IterSt)
    (h1 : s1 = skkIter fmL ⟨p0, ∅, []⟩)
    (h2 : s2 = skkIter dgL s1)
    (h3 : t1 = skkIter fmL ⟨s2.power, ∅, []⟩)
    (h4 : t2 = skkIter dgL t1)
    (h5 : s3 = skkIter spL ⟨t2.power, s2.pick, s2.lg⟩)
    (h6 : t3 = skkIter spL ⟨s3.power, t2.pick, t2.lg⟩) :
    (s3.lg.filter (fun p => decide (p.1 = x))).length +
      (t3.lg.filter (fun p => decide (p.1 = x))).length ≤ p0 x := by
  have e1 : s1.power x + (s1.lg.filter (fun p => decide (p.1 = x))).length = p0 x := by
    rw [h1]
    exact skkIter_cap fmL ⟨p0, ∅, []⟩ x
  have e2 : s2.power x + (s2.lg.filter (fun p => decide (p.1 = x))).length =
      s1.power x + (s1.lg.filter (fun p => decide (p.1 = x))).length := by
    rw [h2]
    exact skkIter_cap dgL s1 x
  have e3 : t1.power x + (t1.lg.filter (fun p => decide (p.1 = x))).length = s2.power x := by
    rw [h3]
    exact skkIter_cap fmL ⟨s2.power, ∅, []⟩ x
  have e4 : t2.power x + (t2.lg.filter (fun p => decide (p.1 = x))).length =
      t1.power x + (t1.lg.filter (fun p => decide (p.1 = x))).length := by
    rw [h4]
    exact skkIter_cap dgL t1 x
  have e5 : s3.power x + (s3.lg.filter (fun p => decide (p.1 = x))).length =
      t2.power x + (s2.lg.filter (fun p => decide (p.1 = x))).length := by
    rw [h5]
    exact skkIter_cap spL ⟨t2.power, s2.pick, s2.lg⟩ x
  have e6 : t3.power x + (t3.lg.filter (fun p => decide (p.1 = x))).length =
      s3.power x + (t2.lg.filter (fun p => decide (p.1 = x))).length := by
    rw [h6]
    exact skkIter_cap spL ⟨s3.power, t2.pick, t2.lg⟩ x
  omega

/-- The secondary pickset of the six passes is contained in the primary
pickset: a user earns the double weight only after earning a primary pick. -/
theorem skkChainSec (fmL dgL spL : List (Nat × Nat)) (p0 : Nat → Nat)
    (s1 s2 t1 t2 s3 t3 : IterSt)
    (h1 : s1 = skkIter fmL ⟨p0, ∅, []⟩)
    (h2 : s2 = skkIter dgL s1)
    (h3 : t1 = skkIter fmL ⟨s2.power, ∅, []⟩)
    (h4 : t2 = skkIter dgL t1)
    (h5 : s3 = skkIter spL ⟨t2.power, s2.pick, s2.lg⟩)
    (h6 : t3 = skkIter spL ⟨s3.power, t2.pick, t2.lg⟩) :
    t3.pick ⊆ s3.pick := by
  have hle : ∀ x, s2.power x ≤ p0 x := by
    intro x
    rw [h2]
    refine le_trans (skkIter_power_le dgL s1 x) ?_
    rw [h1]
    exact skkIter_power_le fmL ⟨p0, ∅, []⟩ x
  have d1 : t1.pick ⊆ s1.pick ∧ ∀ x, t1.power x ≤ s1.power x := by
    rw [h3, h1]
    exact skkIter_dom fmL ⟨p0, ∅, []⟩ ⟨s2.power, ∅, []⟩ (fun v hv => hv) hle
  have d2 : t2.pick ⊆ s2.pick ∧ ∀ x, t2.power x ≤ s2.power x := by
    rw [h4, h2]
    exact skkIter_dom dgL s1 t1 d1.1 d1.2
  have hle2 : ∀ x, s3.power x ≤ t2.power x := by
    intro x
    rw [h5]
    exact skkIter_power_le spL ⟨t2.power, s2.pick, s2.lg⟩ x
  have d3 := skkIter_dom spL ⟨t2.power, s2.pick, s2.lg⟩ ⟨s3.power, t2.pick, t2.lg⟩ d2.1 hle2
  rw [← h5] at d3
  rw [h6]
  exact d3.1

/-- Log/pickset agreement for the primary side of the six passes. -/
theorem skkChainLogP (fmL dgL spL : List (Nat × Nat)) (p0 : Nat → Nat)
    (s1 s2 t2 s3 : IterSt)
    (h1 : s1 = skkIter fmL ⟨p0, ∅, []⟩)
    (h2 : s2 = skkIter dgL s1)
    (h5 : s3 = skkIter spL ⟨t2.power, s2.pick, s2.lg⟩) :
    s3.pick = ((s3.lg.map Prod.snd).toFinset) ∧ ((s3.lg.map Prod.snd).Nodup) := by
  have i1 : s1.pick = ((s1.lg.map Prod.snd).toFinset) ∧ ((s1.lg.map Prod.snd).Nodup) := by
    rw [h1]
    exact skkIter_log_inv fmL ⟨p0, ∅, []⟩ (by simp) (by simp)
  have i2 : s2.pick = ((s2.lg.map Prod.snd).toFinset) ∧ ((s2.lg.map Prod.snd).Nodup) := by
    rw [h2]
    exact skkIter_log_inv dgL s1 i1.1 i1.2
  rw [h5]
  exact skkIter_log_inv spL ⟨t2.power, s2.pick, s2.lg⟩ i2.1 i2.2

/-- Log/pickset agreement for the secondary side of the six passes. -/
theorem skkChainLogS (fmL dgL spL : List (Nat × Nat))
    (s2 t1 t2 s3 t3 : IterSt)
    (h3 : t1 = skkIter fmL ⟨s2.power, ∅, []⟩)
    (h4 : t2 = skkIter dgL t1)
    (h6 : t3 = skkIter spL ⟨s3.power, t2.pick, t2.lg⟩) :
    t3.pick = ((t3.lg.map Prod.snd).toFinset) ∧ ((t3.lg.map Prod.snd).Nodup) := by
  have j1 : t1.pick = ((t1.lg.map Prod.snd).toFinset) ∧ ((t1.lg.map Prod.snd).Nodup) := by
    rw [h3]
    exact skkIter_log_inv fmL ⟨s2.power, ∅, []⟩ (by simp) (by simp)
  have j2 : t2.pick = ((t2.lg.map Prod.snd).toFinset) ∧ ((t2.lg.map Prod.snd).Nodup) := by
    rw [h4]
    exact skkIter_log_inv dgL t1 j1.1 j1.2
  rw [h6]
  exact skkIter_log_inv spL ⟨s3.power, t2.pick, t2.lg⟩ j2.1 j2.2

/-- Per-group capacity bound, packaged for `skkPasses`. -/
theorem skkPasses_cap (fmL dgL spL : List (Nat × Nat)) (p0 : Nat → Nat) (x : Nat) :
    ((skkPasses fmL dgL spL p0).logP.filter (fun p => decide (p.1 = x))).length +
      ((skkPasses fmL dgL spL p0).logS.filter (fun p => decide (p.1 = x))).length ≤ p0 x :=
  skkChainCap fmL dgL spL p0 x _ _ _ _ _ _ rfl rfl rfl rfl rfl rfl

/-- Secondary-inside-primary, packaged for `skkPasses`. -/
theorem skkPasses_sec_subset (fmL dgL spL : List (Nat × Nat)) (p0 : Nat → Nat) :
    (skkPasses fmL dgL spL p0).sec ⊆ (skkPasses fmL dgL spL p0).prim :=
  skkChainSec fmL dgL spL p0 _ _ _ _ _ _ rfl rfl rfl rfl rfl rfl

/-- Primary log/pickset agreement, packaged for `skkPasses`. -/
theorem skkPasses_prim_inv (fmL dgL spL : List (Nat × Nat)) (p0 : Nat → Nat) :
    (skkPasses fmL dgL spL p0).prim =
        (((skkPasses fmL dgL spL p0).logP.map Prod.snd).toFinset) ∧
      (((skkPasses fmL dgL spL p0).logP.map Prod.snd).Nodup) :=
  skkChainLogP fmL dgL spL p0 _ _ _ _ rfl rfl rfl

/-- Secondary log/pickset agreement, packaged for `skkPasses`. -/
theorem skkPasses_sec_inv (fmL dgL spL : List (Nat × Nat)) (p0 : Nat → Nat) :
    (skkPasses fmL dgL spL p0).sec =
        (((skkPasses fmL dgL spL p0).logS.map Prod.snd).toFinset) ∧
      (((skkPasses fmL dgL spL p0).logS.map Prod.snd).Nodup) :=
  skkChainLogS fmL dgL spL _ _ _ _ _ rfl rfl rfl

/-- The weight of the returned SKK dict equals the number of capacity units
consumed for that user. -/
theorem skkPasses_user (fmL dgL spL : List (Nat × Nat)) (p0 : Nat → Nat) (u : Nat) :
    (if u ∈ (skkPasses fmL dgL spL p0).sec then 2
      else if u ∈ (skkPasses fmL dgL spL p0).prim then 1 else 0) =
      ((skkPasses fmL dgL spL p0).logP.map Prod.snd).count u +
        ((skkPasses fmL dgL spL p0).logS.map Prod.snd).count u := by
  have hp := skkPasses_prim_inv fmL dgL spL p0
  have hs := skkPasses_sec_inv fmL dgL spL p0
  have hss := skkPasses_sec_subset fmL dgL spL p0
  have hmp : u ∈ (skkPasses fmL dgL spL p0).prim ↔
      u ∈ ((skkPasses fmL dgL spL p0).logP.map Prod.snd) := by
    rw [hp.1, List.mem_toFinset]
  have hms : u ∈ (skkPasses fmL dgL spL p0).sec ↔
      u ∈ ((skkPasses fmL dgL spL p0).logS.map Prod.snd) := by
    rw [hs.1, List.mem_toFinset]
  rw [List.count_eq_of_nodup hp.2, List.count_eq_of_nodup hs.2]
  by_cases h2 : u ∈ (skkPasses fmL dgL spL p0).sec
  · rw [if_pos h2, if_pos (hms.mp h2), if_pos (hmp.mp (hss h2))]
  · rw [if_neg h2, if_neg (fun hc => h2 (hms.mpr hc))]
    by_cases h1 : u ∈ (skkPasses fmL dgL spL p0).prim
    · rw [if_pos h1, if_pos (hmp.mp h1)]
    · rw [if_neg h1, if_neg (fun hc => h1 (hmp.mpr hc))]

/-- The weight of the returned Main/Substitute+Active dict equals the number
of capacity units consumed for that user. -/
theorem msaCore_user (st : MSAState) (mainPk substPk u : Nat) :
    (if u ∈ (msaAllocCore st mainPk substPk).picked then 1 else 0) =
      ((msaAllocCore st mainPk substPk).log.map Prod.snd).count u := by
  obtain ⟨k1, k2⟩ := msaAllocCore_log_inv st mainPk substPk
  rw [List.count_eq_of_nodup k2]
  have hm : u ∈ (msaAllocCore st mainPk substPk).picked ↔
      u ∈ ((msaAllocCore st mainPk substPk).log.map Prod.snd) := by
    rw [k1, List.mem_toFinset]
  by_cases h : u ∈ (msaAllocCore st mainPk substPk).picked
  · rw [if_pos h, if_pos (hm.mp h)]
  · rw [if_neg h, if_neg (fun hc => h (hm.mpr hc))]

/-- C4: for both role-priority allocators the vote weight attributed to any
single group never exceeds that group's configured capacity.  Each pick event
charges exactly one weight unit to the group whose capacity it consumed; the
units charged to a group never exceed the group's capacity, and every user's
returned weight equals the total units charged on their behalf, so the
returned mapping's weight is fully attributed within each group's
capacity. -/
theorem C4_capacity_within_groups :
    (∀ (st : MSAState) (g n : Nat), msaCharged st g = some n → n ≤ msaCapacity st g) ∧
      (∀ (st : MSAState) (u : Nat), msaUserWeight st u = msaUserCharge st u) ∧
      (∀ (st : SKKState) (g n : Nat), skkCharged st g = some n → n ≤ skkCapacity st g) ∧
      (∀ (st : SKKState) (u : Nat), skkUserWeight st u = skkUserCharge st u) := by
  refine ⟨?_, ?_, ?_, ?_⟩
  · intro st g n h
    unfold msaCharged msaAlloc at h
    cases hro : msaRoles st with
    | none =>
      rw [hro] at h
      exact absurd h (by simp)
    | some pr =>
      rw [hro] at h
      rw [← Option.some.inj h]
      show ((msaAllocCore st pr.1.pk pr.2.pk).log.filter
        (fun p => decide (p.1 = g))).length ≤ msaCapacity st g
      have hcap := msaAllocCore_cap st pr.1.pk pr.2.pk g
      unfold msaCapacity
      omega
  · intro st u
    unfold msaUserWeight msaUserCharge msaAlloc
    cases msaRoles st with
    | none => rfl
    | some pr =>
      exact congrArg some (msaCore_user st pr.1.pk pr.2.pk u)
  · intro st g n h
    unfold skkCharged skkAlloc at h
    cases hro : skkRoles st with
    | none =>
      rw [hro] at h
      exact absurd h (by simp)
    | some r =>
      rw [hro] at h
      rw [← Option.some.inj h]
      exact skkPasses_cap (skkRoleRows st r.2.1.pk) (skkRoleRows st r.1.pk)
        (skkRoleRows st r.2.2.pk) (skkPowerInit (skkGroupsWith st)) g
  · intro st u
    unfold skkUserWeight skkUserCharge skkAlloc
    cases skkRoles st with
    | none => rfl
    | some r =>
      exact congrArg some (skkPasses_user (skkRoleRows st r.2.1.pk) (skkRoleRows st r.1.pk)
        (skkRoleRows st r.2.2.pk) (skkPowerInit (skkGroupsWith st)) u)

/-- Witness state for C4, Main/Substitute+Active: two `main` members in a
group of capacity 1. -/
def c4a : MSAState :=
  { groupRoles := [⟨1, "main"⟩, ⟨2, "substitute"⟩], activeOn := false, activeUsers := [],
    participants := [6, 7], groups := [⟨2, some 1⟩],
    mems := [⟨6, some 1, 2, none⟩, ⟨7, some 1, 2, none⟩] }

/-- Witness state for C4, SKK Fum: a proxy and a delegate in a group of
capacity 3, so the proxy earns a second pick. -/
def c4c : SKKState :=
  { groupRoles := [⟨1, "del_1"⟩, ⟨2, "del_2"⟩, ⟨3, "suppleant"⟩],
    groups := [⟨2, some 3⟩], potVoters := [6, 7], activeOn := false, activeUsers := [],
    mems := [⟨6, some 2, 2⟩, ⟨7, some 1, 2⟩] }

/-- Witness for C4: on concrete states the units charged to the group stay
within its capacity and every user's weight equals the units charged for
them. -/
theorem C4_capacity_within_groups_witness :
    (msaCharged c4a 2 = some 1 ∧ 1 ≤ msaCapacity c4a 2) ∧
      msaUserWeight c4a 6 = msaUserCharge c4a 6 ∧
      (skkCharged c4c 2 = some 3 ∧ 3 ≤ skkCapacity c4c 2) ∧
      skkUserWeight c4c 6 = skkUserCharge c4c 6 := by
  have h1 : msaCharged c4a 2 = some 1 := by decide
  have h3 : skkCharged c4c 2 = some 3 := by decide
  exact ⟨⟨h1, C4_capacity_within_groups.1 c4a 2 1 h1⟩,
    C4_capacity_within_groups.2.1 c4a 6,
    ⟨h3, C4_capacity_within_groups.2.2.1 c4c 2 3 h3⟩,
    C4_capacity_within_groups.2.2.2 c4c 6⟩
